import Mathlib

/-!
Verification development for the quick-build decision and re-insertion
engine of the callisto repository. Definitions are shallow embeddings of
the functions in src/callisto/builders/quick_builder.cpp: filesystem
timestamps, configuration lookups and the insertables invoked by the
driver are passed in explicitly as data, machine integers are modelled as
Nat, JSON null and absent files as Option, and thrown exceptions as
Except results.
-/

set_option autoImplicit false

namespace Callisto

/-- Symbol kinds of insertion steps, from the data model of the build
order. Only PATCH and MODULE are treated specially by the quick builder. -/
inductive Symbol where
  | GRAPHICS
  | EX_GRAPHICS
  | SHARED_PALETTES
  | OVERWORLD
  | TITLE_SCREEN
  | CREDITS
  | GLOBAL_EX_ANIMATION
  | TITLE_MOVES
  | LEVELS
  | MAP16
  | PIXI
  | EXTERNAL_TOOL
  | PATCH
  | MODULE
  deriving DecidableEq, Repr

/-- Descriptor of an insertion step: a symbol plus an optional secondary
name (a module source path or an external tool name). -/
structure Descriptor where
  symbol : Symbol
  name : Option String
  deriving DecidableEq, Repr

/-- Dependency policy: a violated REBUILD dependency forces a full
rebuild, a violated REINSERT dependency only reinserts the owning entry. -/
inductive Policy where
  | REBUILD
  | REINSERT
  deriving DecidableEq, Repr

/-- Configuration dependency record: a dotted key path into the
configuration, the value observed at last build (opaque JSON, modelled as
Nat), and a policy. -/
structure ConfigurationDependency where
  config_keys : String
  value : Nat
  policy : Policy
  deriving DecidableEq, Repr

/-- Resource dependency record: a file path, the last write time observed
at last build (none when the file did not exist), and a policy. -/
structure ResourceDependency where
  dependent_path : String
  last_write_time : Option Nat
  policy : Policy
  deriving DecidableEq, Repr

/-- One entry of the build report, parallel to the build order. The
hijacks field is meaningful only for PATCH entries; the source keeps it in
the JSON entry, here it is an always-present list that other symbols leave
empty. Each hijack is an address paired with a byte length. -/
structure Entry where
  descriptor : Descriptor
  configuration_dependencies : List ConfigurationDependency
  resource_dependencies : List ResourceDependency
  hijacks : List (Nat × Nat)
  deriving DecidableEq, Repr

/-- The parsed build report. module_outputs maps a module source path to
the list of output files its last assembly produced. -/
structure Report where
  file_format_version : Nat
  build_order : List Descriptor
  rom_size : Option Nat
  dependencies : List Entry
  inserted_levels : List Nat
  module_outputs : String → List String

/-- Contents of the configured levels folder as the quick builder sees
them: whether the folder exists, and for each .mwl file in it the internal
level number extracted from it (none when extraction fails). -/
structure LevelsFolder where
  folder_exists : Bool
  mwl_numbers : List (Option Nat)

/-- The slice of the Configuration object the quick builder reads.
output_rom_exists is the result of the fs::exists check on the configured
output ROM path; levels is some folder contents exactly when the levels
path is set; getByKey is the current value of a dotted configuration key
(opaque JSON values modelled as Nat). -/
structure Configuration where
  output_rom_exists : Bool
  rom_size : Option Nat
  build_order : List Descriptor
  levels : Option LevelsFolder
  getByKey : String → Nat

/-- Error kinds thrown by the quick builder. NoDependencyReportFound is
not here because the driver catches it and never propagates it. -/
inductive BuildError where
  | mustRebuild
  | insertion
  | toolNotFound
  | resourceNotFound
  deriving DecidableEq, Repr

/-- Version constant compiled into the engine. Its numeric value lives in
a header outside src/ and is irrelevant to the claims, which only compare
the report version against it. -/
def BUILD_REPORT_VERSION : Nat := 3

/-- QuickBuilder constructor: loading the report; a missing build report
file raises MustRebuild. -/
def quickBuilderConstructor (build_report : Option Report) : Except BuildError Report :=
  match build_report with
  | none => .error .mustRebuild
  | some r => .ok r

/-- Check that the report format version equals the engine constant,
from QuickBuilder::checkBuildReportFormat. -/
def checkBuildReportFormat (report : Report) : Except BuildError Unit :=
  if report.file_format_version ≠ BUILD_REPORT_VERSION then .error .mustRebuild
  else .ok ()

/-- Element-wise walk of the two build orders, from the loop in
QuickBuilder::checkBuildOrderChange (runs after the length comparison). -/
def checkBuildOrderAux : List Descriptor → List Descriptor → Except BuildError Unit
  | [], _ => .ok ()
  | _ :: _, [] => .ok ()
  | new :: ns, old :: os =>
    if old ≠ new then .error .mustRebuild else checkBuildOrderAux ns os

/-- Check that the configured build order equals the one in the report,
from QuickBuilder::checkBuildOrderChange. -/
def checkBuildOrderChange (config : Configuration) (report : Report) : Except BuildError Unit :=
  if config.build_order.length ≠ report.build_order.length then .error .mustRebuild
  else checkBuildOrderAux config.build_order report.build_order

/-- Modelled from the spec: the Configuration class and its config
variable helpers are not under src/. The source compares the JSON value
report["rom_size"] against config.rom_size.getOrThrow(); following the
spec (section 4.2 step 2: both unset counts as match, exactly one set is
a mismatch), the comparison is modelled on optional values, an unset
variable comparing equal to the JSON null stored in the report. -/
def romSizeValuesDiffer (report_rom_size config_rom_size : Option Nat) : Prop :=
  report_rom_size ≠ config_rom_size

instance (a b : Option Nat) : Decidable (romSizeValuesDiffer a b) := by
  unfold romSizeValuesDiffer
  infer_instance

/-- Check that the configured ROM size still matches the one recorded in
the report, from QuickBuilder::checkRebuildRomSize. -/
def checkRebuildRomSize (config : Configuration) (report : Report) : Except BuildError Unit :=
  if (report.rom_size = none ∧ config.rom_size.isSome)
      ∨ romSizeValuesDiffer report.rom_size config.rom_size then
    .error .mustRebuild
  else .ok ()

/-- Collect the internal level numbers of the .mwl files, from the
directory loop of QuickBuilder::checkProblematicLevelChanges. A file whose
level number cannot be determined raises an insertion error. -/
def getNewLevelNumbers : List (Option Nat) → Except BuildError (List Nat)
  | [] => .ok []
  | none :: _ => .error .insertion
  | some n :: rest =>
    match getNewLevelNumbers rest with
    | .error e => .error e
    | .ok ns => .ok (n :: ns)

/-- Check that no previously inserted level lost its .mwl file, from
QuickBuilder::checkProblematicLevelChanges. -/
def checkProblematicLevelChanges (folder : LevelsFolder) (old_level_numbers : List Nat) :
    Except BuildError Unit :=
  if ¬folder.folder_exists then .error .insertion
  else
    match getNewLevelNumbers folder.mwl_numbers with
    | .error e => .error e
    | .ok new_level_numbers =>
      if old_level_numbers.countP (fun l => !(new_level_numbers.contains l)) ≠ 0 then
        .error .mustRebuild
      else .ok ()

/-- Walk the configuration dependencies of one entry and fail on the
first REBUILD dependency whose value changed, from the inner loop of
QuickBuilder::checkRebuildConfigDependencies. -/
def checkEntryRebuildConfigDeps (getByKey : String → Nat) :
    List ConfigurationDependency → Except BuildError Unit
  | [] => .ok ()
  | d :: ds =>
    if d.policy = .REBUILD ∧ d.value ≠ getByKey d.config_keys then .error .mustRebuild
    else checkEntryRebuildConfigDeps getByKey ds

/-- Check every REBUILD configuration dependency of every entry, from
QuickBuilder::checkRebuildConfigDependencies. -/
def checkRebuildConfigDependencies (getByKey : String → Nat) :
    List Entry → Except BuildError Unit
  | [] => .ok ()
  | e :: rest =>
    match checkEntryRebuildConfigDeps getByKey e.configuration_dependencies with
    | .error err => .error err
    | .ok _ => checkRebuildConfigDependencies getByKey rest

/-- Current timestamp of a path. The source computes fs::exists and then
fs::last_write_time; the filesystem is modelled as one map from paths to
the timestamp of the file when it exists, none when it is absent, which
is exactly the optional the source builds. -/
def currentTimestamp (fs : String → Option Nat) (path : String) : Option Nat :=
  fs path

/-- Walk the resource dependencies of one entry and fail on the first
REBUILD dependency whose timestamp changed, from the inner loop of
QuickBuilder::checkRebuildResourceDependencies. -/
def checkEntryRebuildResourceDeps (fs : String → Option Nat) :
    List ResourceDependency → Except BuildError Unit
  | [] => .ok ()
  | d :: ds =>
    if d.policy = .REBUILD ∧ currentTimestamp fs d.dependent_path ≠ d.last_write_time then
      .error .mustRebuild
    else checkEntryRebuildResourceDeps fs ds

/-- Entry-list walk of the REBUILD resource dependency check, from the
outer loop of QuickBuilder::checkRebuildResourceDependencies. -/
def checkRebuildResourceDependenciesFrom (fs : String → Option Nat) :
    List Entry → Except BuildError Unit
  | [] => .ok ()
  | e :: rest =>
    match checkEntryRebuildResourceDeps fs e.resource_dependencies with
    | .error err => .error err
    | .ok _ => checkRebuildResourceDependenciesFrom fs rest

/-- Check every REBUILD resource dependency of every entry from
starting_index to the end of the dependency list, from
QuickBuilder::checkRebuildResourceDependencies (the source starts its
iterator at begin() + starting_index). -/
def checkRebuildResourceDependencies (dependencies : List Entry) (fs : String → Option Nat)
    (starting_index : Nat) : Except BuildError Unit :=
  checkRebuildResourceDependenciesFrom fs (dependencies.drop starting_index)

/-- Return the first REINSERT configuration dependency whose value
changed, from QuickBuilder::checkReinsertConfigDependencies. -/
def checkReinsertConfigDependencies (getByKey : String → Nat) :
    List ConfigurationDependency → Option ConfigurationDependency
  | [] => none
  | d :: ds =>
    if d.policy = .REINSERT ∧ d.value ≠ getByKey d.config_keys then some d
    else checkReinsertConfigDependencies getByKey ds

/-- Return the first REINSERT resource dependency whose timestamp
changed, from QuickBuilder::checkReinsertResourceDependencies. -/
def checkReinsertResourceDependencies (fs : String → Option Nat) :
    List ResourceDependency → Option ResourceDependency
  | [] => none
  | d :: ds =>
    if d.policy = .REINSERT ∧ currentTimestamp fs d.dependent_path ≠ d.last_write_time then
      some d
    else checkReinsertResourceDependencies fs ds

/-- All byte addresses covered by a list of hijack ranges; the source
expands each pair (address, number) into the addresses address + i for
i below number and collects them into a set, of which only membership is
ever used. -/
def writtenAddresses (hijacks : List (Nat × Nat)) : List Nat :=
  hijacks.flatMap (fun p => (List.range p.2).map (fun i => p.1 + i))

/-- Hijack validator, from QuickBuilder::hijacksGoneBad: true when some
byte address written by the old hijacks is not written by the new ones. -/
def hijacksGoneBad (old_hijacks new_hijacks : List (Nat × Nat)) : Bool :=
  (writtenAddresses old_hijacks).any
    (fun a => !((writtenAddresses new_hijacks).contains a))

/-- Outcome of one call to insertWithDependencies on an insertable: it
returns the observed resource dependencies, or raises
NoDependencyReportFound (caught by the driver), or raises a fatal error. -/
inductive InsertWithDepsResult where
  | ok (resource_dependencies : List ResourceDependency)
  | noDependencyReportFound
  | err (e : BuildError)
  deriving DecidableEq, Repr

/-- Behavior of the insertable the driver constructs for one entry. The
engine drives insertables opaquely, so each one is modelled by the results
of the calls the driver can make on it. -/
structure InsertableOracle where
  initResult : Except BuildError Unit
  insertWithDependencies : InsertWithDepsResult
  insertResult : Except BuildError Unit
  configurationDependencies : List ConfigurationDependency
  hijacks : List (Nat × Nat)

/-- External world of one build run: current filesystem timestamps, the
insertable constructed for each entry index, the result of cleaning a
module (QuickBuilder::cleanModule, modelled in detail separately, is
keyed here by the module source path), and the result of copying the
previously cached outputs of an unchanged module back into place
(QuickBuilder::copyOldModuleOutput, keyed by the output path list). -/
structure Env where
  fs : String → Option Nat
  oracle : Nat → InsertableOracle
  cleanModuleResult : String → Except BuildError Unit
  copyOldModuleOutput : List String → Except BuildError Unit

/-- How one entry was handled by the per-entry loop. -/
inductive EntryAction where
  | unchanged
  | reinsertedWithDeps
  | reinsertLostReport
  | reinsertedPlain
  deriving DecidableEq, Repr

/-- Mutable flags of the per-entry loop of QuickBuilder::build. -/
structure LoopState where
  any_work_done : Bool
  failed_dependency_report : Bool
  deriving DecidableEq, Repr

/-- Per-entry classification, from lines 63 to 89 of
QuickBuilder::build: walk the REINSERT configuration dependencies first
and report the changed key, else walk the REINSERT resource dependencies
and report the changed path; the entry must reinsert when either walk
found a change. -/
def classifyEntry (config : Configuration) (fs : String → Option Nat) (entry : Entry) :
    Option (ConfigurationDependency ⊕ ResourceDependency) :=
  match checkReinsertConfigDependencies config.getByKey entry.configuration_dependencies with
  | some config_dep => some (Sum.inl config_dep)
  | none =>
    match checkReinsertResourceDependencies fs entry.resource_dependencies with
    | some resource_dep => some (Sum.inr resource_dep)
    | none => none

/-- Insertion stage of the reinsert branch, lines 107 to 131 of
QuickBuilder::build: while no dependency report has been lost, call
insertWithDependencies and on success replace both dependency lists of
the entry, on NoDependencyReportFound keep the entry and set the sticky
flag; once the flag is set, call the plain insert instead and keep the
entry. -/
def insertStep (insertable : InsertableOracle) (entry : Entry) (st1 : LoopState) :
    Except BuildError (Entry × EntryAction × LoopState) :=
  if ¬st1.failed_dependency_report then
    match insertable.insertWithDependencies with
    | .ok resource_deps =>
      .ok (({ entry with
              configuration_dependencies := insertable.configurationDependencies,
              resource_dependencies := resource_deps } : Entry),
           EntryAction.reinsertedWithDeps, st1)
    | .noDependencyReportFound =>
      .ok (entry, EntryAction.reinsertLostReport,
           { st1 with failed_dependency_report := true })
    | .err e => .error e
  else
    match insertable.insertResult with
    | .error e => .error e
    | .ok _ => .ok (entry, EntryAction.reinsertedPlain, st1)

/-- Hijack validation stage of the reinsert branch, lines 133 to 145 of
QuickBuilder::build: for a PATCH entry compare the old hijacks of the
entry against the new hijacks of the insertable, raising MustRebuild when
they have gone bad and otherwise writing the new hijacks into the entry;
other symbols pass through. -/
def patchStep (insertable : InsertableOracle) (entry : Entry)
    (step : Entry × EntryAction × LoopState) :
    Except BuildError (Entry × EntryAction × LoopState) :=
  if entry.descriptor.symbol = .PATCH then
    if hijacksGoneBad entry.hijacks insertable.hijacks then .error .mustRebuild
    else .ok ({ step.1 with hijacks := insertable.hijacks }, step.2.1, step.2.2)
  else .ok step

/-- Body of the per-entry loop of QuickBuilder::build for one entry: the
reinsert branch records that work was done, cleans modules, initializes
the insertable constructed for the entry, runs the insertion stage and
then the hijack validation stage; the unchanged branch restores cached
module outputs. Returns the possibly updated entry, the action taken,
and the updated loop flags. -/
def processEntry (config : Configuration) (env : Env) (report : Report) (idx : Nat)
    (entry : Entry) (st : LoopState) : Except BuildError (Entry × EntryAction × LoopState) :=
  if (classifyEntry config env.fs entry).isSome then
    match (if entry.descriptor.symbol = .MODULE then
            env.cleanModuleResult (entry.descriptor.name.getD "")
           else .ok ()) with
    | .error e => .error e
    | .ok _ =>
      match (env.oracle idx).initResult with
      | .error e => .error e
      | .ok _ =>
        match insertStep (env.oracle idx) entry { st with any_work_done := true } with
        | .error e => .error e
        | .ok step => patchStep (env.oracle idx) entry step
  else
    if entry.descriptor.symbol = .MODULE then
      match env.copyOldModuleOutput (report.module_outputs (entry.descriptor.name.getD "")) with
      | .error e => .error e
      | .ok _ => .ok (entry, EntryAction.unchanged, st)
    else .ok (entry, EntryAction.unchanged, st)

/-- The per-entry loop of QuickBuilder::build: before each entry of the
original dependency list, run the REBUILD resource check from the current
index onward, then process the entry. Collects the final entries and the
action taken for each. -/
def runEntries (config : Configuration) (env : Env) (report : Report) :
    List Entry → Nat → LoopState → Except BuildError (List Entry × List EntryAction × LoopState)
  | [], _, st => .ok ([], [], st)
  | entry :: rest, idx, st =>
    match checkRebuildResourceDependencies report.dependencies env.fs idx with
    | .error e => .error e
    | .ok _ =>
      match processEntry config env report idx entry st with
      | .error e => .error e
      | .ok (entry1, act, st1) =>
        match runEntries config env report rest (idx + 1) st1 with
        | .error e => .error e
        | .ok (entries1, acts, st2) => .ok (entry1 :: entries1, act :: acts, st2)

/-- Exit contract of QuickBuilder::build. -/
inductive Result where
  | SUCCESS
  | NO_WORK
  deriving DecidableEq, Repr

/-- Observable side effects of one build run on the project: each flag
records whether the corresponding filesystem action of
QuickBuilder::build happened. copied_rom_to_temporary is set at the first
reinsert inside the loop, the others at commit. -/
structure Effects where
  copied_rom_to_temporary : Bool
  report_written : Bool
  report_deleted : Bool
  modules_cached : Bool
  marker_written : Bool
  output_replaced : Bool
  graphics_linked : Bool
  temporary_folder_removed : Bool
  deriving DecidableEq, Repr

/-- The effects of a run that did nothing. -/
def noEffects : Effects :=
  { copied_rom_to_temporary := false
    report_written := false
    report_deleted := false
    modules_cached := false
    marker_written := false
    output_replaced := false
    graphics_linked := false
    temporary_folder_removed := false }

/-- What a completed build run returns: the result code, the effects, the
final (mutated) report entries and the per-entry actions. -/
structure BuildOutcome where
  result : Result
  effects : Effects
  dependencies : List Entry
  actions : List EntryAction

/-- Commit phase of QuickBuilder::build, lines 58 to 187: run the
per-entry loop starting from fresh flags, then either perform all commit
actions (persisting the report exactly when no dependency report was
lost, deleting it otherwise) and return SUCCESS, or perform nothing and
return NO_WORK. The ROM copy to the temporary path happens at the first
reinsert, which is exactly when any_work_done becomes true. -/
def runAndCommit (config : Configuration) (env : Env) (report : Report) :
    Except BuildError BuildOutcome :=
  match runEntries config env report report.dependencies 0 ⟨false, false⟩ with
  | .error e => .error e
  | .ok (entries1, acts, st) =>
    if st.any_work_done then
      .ok { result := .SUCCESS
            effects :=
              { copied_rom_to_temporary := true
                report_written := !st.failed_dependency_report
                report_deleted := st.failed_dependency_report
                modules_cached := true
                marker_written := true
                output_replaced := true
                graphics_linked := true
                temporary_folder_removed := true }
            dependencies := entries1
            actions := acts }
    else
      .ok { result := .NO_WORK
            effects := noEffects
            dependencies := entries1
            actions := acts }

/-- QuickBuilder::build: the per-report checks in source order (previous
output ROM exists, ROM size, report format version, build order, levels
when configured, REBUILD configuration dependencies), then the per-entry
loop and the commit. The init(config) call at the top of the source is
declared outside src/ and performs engine setup that none of the claims
touch; it is not modelled. -/
def build (config : Configuration) (env : Env) (report : Report) :
    Except BuildError BuildOutcome :=
  if ¬config.output_rom_exists then .error .mustRebuild
  else
    match checkRebuildRomSize config report with
    | .error e => .error e
    | .ok _ =>
      match checkBuildReportFormat report with
      | .error e => .error e
      | .ok _ =>
        match checkBuildOrderChange config report with
        | .error e => .error e
        | .ok _ =>
          match (match config.levels with
                 | some folder => checkProblematicLevelChanges folder report.inserted_levels
                 | none => .ok ()) with
          | .error e => .error e
          | .ok _ =>
            match checkRebuildConfigDependencies config.getByKey report.dependencies with
            | .error e => .error e
            | .ok _ => runAndCommit config env report

/-- Uppercase hexadecimal digit for a value below 16, as produced by the
X presentation of the formatting library. -/
def hexDigitU (n : Nat) : Char :=
  if n < 10 then Char.ofNat (48 + n) else Char.ofNat (55 + n)

/-- Digits of n in base 16, most significant first, prepended to acc.
The fuel argument only bounds the recursion depth; any fuel at least n
gives the digits of n. -/
def hexCharsAux : Nat → Nat → List Char → List Char
  | 0, _, acc => acc
  | _ + 1, 0, acc => acc
  | fuel + 1, n + 1, acc =>
    hexCharsAux fuel ((n + 1) / 16) (hexDigitU ((n + 1) % 16) :: acc)

/-- Uppercase hexadecimal digits of n without leading zeros, one digit
for zero. -/
def hexChars (n : Nat) : List Char :=
  if n = 0 then ['0'] else hexCharsAux n n []

/-- Left-pad a digit list with zeros up to the given width, as the 06
width specification of the formatting library does. -/
def padLeftZeros (s : List Char) (width : Nat) : List Char :=
  List.replicate (width - s.length) '0' ++ s

/-- One line of the generated cleanup patch, from the statement
temp_patch << fmt::format("autoclean $\x7b:06X\x7d\n", address) in
QuickBuilder::cleanModule. -/
def formatAutocleanLine (address : Nat) : String :=
  "autoclean $" ++ String.mk (padLeftZeros (hexChars address) 6) ++ "\n"

/-- The whole generated cleanup patch source, from the line loop of
QuickBuilder::cleanModule. Addresses are the decimal integers std::stoi
reads from the lines of the cleanup file. -/
def buildCleanPatchSource : List Nat → String
  | [] => ""
  | a :: rest => formatAutocleanLine a ++ buildCleanPatchSource rest

/-- The assembler library as QuickBuilder::cleanModule uses it: whether
asar_init succeeds, and the result of asar_patch_ex on a patch source and
the unheadered ROM body (none models a returned failure, some gives the
body buffer after in-place modification). -/
structure AsarModel where
  init_ok : Bool
  patch : String → List Nat → Option (List Nat)

/-- Maximum ROM size constant passed to the assembler as the buffer
cap; its numeric value lives in a header outside src/. -/
def MAX_ROM_SIZE : Nat := 16 * 1024 * 1024

/-- What a successful QuickBuilder::cleanModule run produced: the
generated patch source, the header size and unheadered size it computed,
and the bytes written back to the temporary ROM. -/
structure CleanModuleOutcome where
  patch_source : String
  header_size : Nat
  unheadered_rom_size : Nat
  written_rom : List Nat
  deriving DecidableEq, Repr

/-- QuickBuilder::cleanModule: read the cleanup file (missing raises
MustRebuild), emit one autoclean line per address, read the temporary ROM
(its bytes are passed in), compute the header size as rom size AND 0x7FFF
and the unheadered size as the difference, initialize the assembler
(failure raises ToolNotFound), run it on the body after the header
(failure raises MustRebuild), and on success write the buffer back. -/
def cleanModule (cleanup_file : Option (List Nat)) (rom_bytes : List Nat)
    (asar : AsarModel) : Except BuildError CleanModuleOutcome :=
  match cleanup_file with
  | none => .error .mustRebuild
  | some addresses =>
    let patch_source := buildCleanPatchSource addresses
    let rom_size := rom_bytes.length
    let header_size := rom_size &&& 0x7FFF
    let unheadered_rom_size := rom_size - header_size
    if ¬asar.init_ok then .error .toolNotFound
    else
      match asar.patch patch_source (rom_bytes.drop header_size) with
      | some body => .ok { patch_source := patch_source
                           header_size := header_size
                           unheadered_rom_size := unheadered_rom_size
                           written_rom := rom_bytes.take header_size ++ body }
      | none => .error .mustRebuild

/-- Spec wording of the ROM size match for the rebuild check: both unset
counts as a match, exactly one set counts as a mismatch, both set match
exactly when equal. -/
def romSizeMatchesSpec (configured reported : Option Nat) : Prop :=
  (configured = none ∧ reported = none) ∨ ∃ v, configured = some v ∧ reported = some v

/-- The dependency lists of the second entry equal those of the first;
used to state that reinsertion left an entry untouched apart from its
hijacks field. -/
def depsUnchanged (orig final : Entry) : Prop :=
  final.configuration_dependencies = orig.configuration_dependencies ∧
  final.resource_dependencies = orig.resource_dependencies

/-- Uppercase hexadecimal digit characters. -/
def isUpperHexDigit (c : Char) : Bool :=
  decide ((48 ≤ c.toNat ∧ c.toNat ≤ 57) ∨ (65 ≤ c.toNat ∧ c.toNat ≤ 70))

/-- Numeric value of an uppercase hexadecimal digit character. -/
def hexVal (c : Char) : Nat :=
  if c.toNat ≤ 57 then c.toNat - 48 else c.toNat - 55

/-- Number denoted by a most-significant-first uppercase hexadecimal
digit list. -/
def ofHexChars (l : List Char) : Nat :=
  l.foldl (fun acc c => 16 * acc + hexVal c) 0

/-- A REINSERT configuration dependency whose recorded value differs from
the current configuration value; the per-entry classification walks look
for these. -/
def configMismatch (getByKey : String → Nat) (d : ConfigurationDependency) : Prop :=
  d.policy = .REINSERT ∧ d.value ≠ getByKey d.config_keys

/-- A REINSERT resource dependency whose recorded timestamp differs from
the current one. -/
def resourceMismatch (fs : String → Option Nat) (d : ResourceDependency) : Prop :=
  d.policy = .REINSERT ∧ currentTimestamp fs d.dependent_path ≠ d.last_write_time

/-- A REBUILD resource dependency whose recorded timestamp differs from
the current one; any such dependency from the scan start onward forces a
full rebuild. -/
def rebuildResourceMismatch (fs : String → Option Nat) (d : ResourceDependency) : Prop :=
  d.policy = .REBUILD ∧ currentTimestamp fs d.dependent_path ≠ d.last_write_time

/-- An assembler model that initializes and leaves the body unchanged. -/
def cleanAsar : AsarModel :=
  { init_ok := true
    patch := fun _ body => some body }

/-- Outcome of cleaning a module with one cleanup address on a two byte
ROM. -/
def cleanOutcome : CleanModuleOutcome :=
  { patch_source := "autoclean $108000\n"
    header_size := 2
    unheadered_rom_size := 0
    written_rom := [7, 7] }

/-- Relation between one original entry with the action the loop took on
it and the final entry the loop produced for it: an unchanged entry is
returned as is, an entry whose action is not reinsertedWithDeps keeps
both dependency lists, and a reinserted PATCH entry passed the hijack
validation against its old hijacks. -/
def perEntryOutcome (p : Entry × EntryAction) (final : Entry) : Prop :=
  (p.2 = .unchanged → final = p.1) ∧
  (p.2 ≠ .reinsertedWithDeps → depsUnchanged p.1 final) ∧
  (p.1.descriptor.symbol = .PATCH → p.2 ≠ .unchanged →
    hijacksGoneBad p.1.hijacks final.hijacks = false)

/-- A trivial insertable used by concrete evaluation examples. -/
def sampleOracle : InsertableOracle :=
  { initResult := .ok ()
    insertWithDependencies := .ok []
    insertResult := .ok ()
    configurationDependencies := []
    hijacks := [] }

/-- A world with an empty filesystem and trivial insertables. -/
def sampleEnv : Env :=
  { fs := fun _ => none
    oracle := fun _ => sampleOracle
    cleanModuleResult := fun _ => .ok ()
    copyOldModuleOutput := fun _ => .ok () }

/-- A minimal configuration with an existing previous ROM and no levels
folder. -/
def sampleConfig : Configuration :=
  { output_rom_exists := true
    rom_size := none
    build_order := []
    levels := none
    getByKey := fun _ => 0 }

/-- A report of a build with no entries. -/
def emptyReport : Report :=
  { file_format_version := BUILD_REPORT_VERSION
    build_order := []
    rom_size := none
    dependencies := []
    inserted_levels := []
    module_outputs := fun _ => [] }

/-- A REBUILD resource dependency that mismatches the empty filesystem. -/
def rebuildMismatchDep : ResourceDependency :=
  { dependent_path := "resources/a.bin"
    last_write_time := some 1
    policy := .REBUILD }

/-- An entry carrying the mismatching REBUILD dependency. -/
def rebuildMismatchEntry : Entry :=
  { descriptor := { symbol := .GRAPHICS, name := none }
    configuration_dependencies := []
    resource_dependencies := [rebuildMismatchDep]
    hijacks := [] }

/-- A report whose only entry carries the mismatching REBUILD
dependency. -/
def rebuildMismatchReport : Report :=
  { file_format_version := BUILD_REPORT_VERSION
    build_order := [{ symbol := .GRAPHICS, name := none }]
    rom_size := none
    dependencies := [rebuildMismatchEntry]
    inserted_levels := []
    module_outputs := fun _ => [] }

/-- A configuration whose previous output ROM is missing. -/
def noRomConfig : Configuration :=
  { output_rom_exists := false
    rom_size := none
    build_order := []
    levels := none
    getByKey := fun _ => 0 }

/-- Outcome of a run that found nothing to do on an empty report. -/
def noWorkOutcome : BuildOutcome :=
  { result := .NO_WORK
    effects := noEffects
    dependencies := []
    actions := [] }

/-- Descriptor of a patch insertable. -/
def patchDescriptor : Descriptor := { symbol := .PATCH, name := none }

/-- A REINSERT resource dependency that mismatches the empty
filesystem, forcing its entry to reinsert. -/
def reinsertMismatchDep : ResourceDependency :=
  { dependent_path := "patch.asm"
    last_write_time := some 1
    policy := .REINSERT }

/-- A patch entry due for reinsertion with previously recorded hijacks. -/
def patchEntry : Entry :=
  { descriptor := patchDescriptor
    configuration_dependencies := []
    resource_dependencies := [reinsertMismatchDep]
    hijacks := [(8, 2)] }

/-- A report whose only entry is the patch entry. -/
def patchReport : Report :=
  { file_format_version := BUILD_REPORT_VERSION
    build_order := [patchDescriptor]
    rom_size := none
    dependencies := [patchEntry]
    inserted_levels := []
    module_outputs := fun _ => [] }

/-- A configuration matching the patch report. -/
def patchConfig : Configuration :=
  { output_rom_exists := true
    rom_size := none
    build_order := [patchDescriptor]
    levels := none
    getByKey := fun _ => 0 }

/-- An insertable whose reinsertion writes a superset of the previously
hijacked addresses. -/
def patchOracle : InsertableOracle :=
  { initResult := .ok ()
    insertWithDependencies := .ok []
    insertResult := .ok ()
    configurationDependencies := []
    hijacks := [(8, 4)] }

/-- World for the patch scenario. -/
def patchEnv : Env :=
  { fs := fun _ => none
    oracle := fun _ => patchOracle
    cleanModuleResult := fun _ => .ok ()
    copyOldModuleOutput := fun _ => .ok () }

/-- The patch entry as the loop leaves it: fresh dependency lists and the
new hijacks. -/
def patchFinalEntry : Entry :=
  { descriptor := patchDescriptor
    configuration_dependencies := []
    resource_dependencies := []
    hijacks := [(8, 4)] }

/-- Outcome of the patch scenario build. -/
def patchOutcome : BuildOutcome :=
  { result := .SUCCESS
    effects :=
      { copied_rom_to_temporary := true
        report_written := true
        report_deleted := false
        modules_cached := true
        marker_written := true
        output_replaced := true
        graphics_linked := true
        temporary_folder_removed := true }
    dependencies := [patchFinalEntry]
    actions := [.reinsertedWithDeps] }

/-- Descriptor of a graphics insertable. -/
def graphicsDescriptor : Descriptor := { symbol := .GRAPHICS, name := none }

/-- A REINSERT configuration dependency recording a value different from
the current configuration. -/
def mismatchConfigDep : ConfigurationDependency :=
  { config_keys := "rom_size"
    value := 1
    policy := .REINSERT }

/-- An entry whose single configuration dependency mismatches. -/
def configMismatchEntry : Entry :=
  { descriptor := graphicsDescriptor
    configuration_dependencies := [mismatchConfigDep]
    resource_dependencies := []
    hijacks := [] }

/-- A graphics entry due for reinsertion. -/
def graphicsEntry : Entry :=
  { descriptor := graphicsDescriptor
    configuration_dependencies := []
    resource_dependencies := [reinsertMismatchDep]
    hijacks := [] }

/-- A report whose only entry is the graphics entry. -/
def lostReport : Report :=
  { file_format_version := BUILD_REPORT_VERSION
    build_order := [graphicsDescriptor]
    rom_size := none
    dependencies := [graphicsEntry]
    inserted_levels := []
    module_outputs := fun _ => [] }

/-- A configuration matching the graphics report. -/
def lostConfig : Configuration :=
  { output_rom_exists := true
    rom_size := none
    build_order := [graphicsDescriptor]
    levels := none
    getByKey := fun _ => 0 }

/-- An insertable that cannot produce a dependency report. -/
def lostOracle : InsertableOracle :=
  { initResult := .ok ()
    insertWithDependencies := .noDependencyReportFound
    insertResult := .ok ()
    configurationDependencies := []
    hijacks := [] }

/-- World for the lost-dependency-report scenario. -/
def lostEnv : Env :=
  { fs := fun _ => none
    oracle := fun _ => lostOracle
    cleanModuleResult := fun _ => .ok ()
    copyOldModuleOutput := fun _ => .ok () }

/-- Outcome of the lost-dependency-report scenario build: work was done
but the report is deleted instead of persisted. -/
def lostOutcome : BuildOutcome :=
  { result := .SUCCESS
    effects :=
      { copied_rom_to_temporary := true
        report_written := false
        report_deleted := true
        modules_cached := true
        marker_written := true
        output_replaced := true
        graphics_linked := true
        temporary_folder_removed := true }
    dependencies := [graphicsEntry]
    actions := [.reinsertLostReport] }

theorem mem_writtenAddresses {a : Nat} {hs : List (Nat × Nat)} :
    a ∈ writtenAddresses hs ↔ ∃ p ∈ hs, p.1 ≤ a ∧ a < p.1 + p.2 := by
  unfold writtenAddresses
  rw [List.mem_flatMap]
  constructor
  · rintro ⟨p, hp, hmem⟩
    rw [List.mem_map] at hmem
    obtain ⟨i, hi, rfl⟩ := hmem
    rw [List.mem_range] at hi
    exact ⟨p, hp, Nat.le_add_right _ _, by omega⟩
  · rintro ⟨p, hp, h1, h2⟩
    refine ⟨p, hp, ?_⟩
    rw [List.mem_map]
    exact ⟨a - p.1, List.mem_range.mpr (by omega), by omega⟩

theorem hijacksGoneBad_true_iff (old_hijacks new_hijacks : List (Nat × Nat)) :
    hijacksGoneBad old_hijacks new_hijacks = true ↔
      ∃ a, a ∈ writtenAddresses old_hijacks ∧ a ∉ writtenAddresses new_hijacks := by
  simp [hijacksGoneBad, List.any_eq_true, List.contains, List.elem_iff]

theorem hijacksGoneBad_false_iff (old_hijacks new_hijacks : List (Nat × Nat)) :
    hijacksGoneBad old_hijacks new_hijacks = false ↔
      ∀ a ∈ writtenAddresses old_hijacks, a ∈ writtenAddresses new_hijacks := by
  rw [← Bool.not_eq_true, hijacksGoneBad_true_iff]
  push_neg
  rfl

theorem hijacksGoneBad_congr {o1 o2 n1 n2 : List (Nat × Nat)}
    (ho : ∀ a, a ∈ writtenAddresses o1 ↔ a ∈ writtenAddresses o2)
    (hn : ∀ a, a ∈ writtenAddresses n1 ↔ a ∈ writtenAddresses n2) :
    hijacksGoneBad o1 n1 = hijacksGoneBad o2 n2 := by
  rw [Bool.eq_iff_iff, hijacksGoneBad_true_iff, hijacksGoneBad_true_iff]
  constructor
  · rintro ⟨a, h1, h2⟩
    exact ⟨a, (ho a).mp h1, fun hc => h2 ((hn a).mpr hc)⟩
  · rintro ⟨a, h1, h2⟩
    exact ⟨a, (ho a).mpr h1, fun hc => h2 ((hn a).mp hc)⟩

theorem mem_writtenAddresses_zero_cons (addr : Nat) (rest : List (Nat × Nat)) (x : Nat) :
    x ∈ writtenAddresses ((addr, 0) :: rest) ↔ x ∈ writtenAddresses rest := by
  simp only [mem_writtenAddresses, List.mem_cons]
  constructor
  · rintro ⟨p, rfl | hp, h1, h2⟩
    · have h1a : addr ≤ x := h1
      have h2a : x < addr + 0 := h2
      omega
    · exact ⟨p, hp, h1, h2⟩
  · rintro ⟨p, hp, h1, h2⟩
    exact ⟨p, Or.inr hp, h1, h2⟩

theorem mem_writtenAddresses_split_cons (addr m n : Nat) (rest : List (Nat × Nat)) (x : Nat) :
    x ∈ writtenAddresses ((addr, m + n) :: rest) ↔
      x ∈ writtenAddresses ((addr, m) :: (addr + m, n) :: rest) := by
  simp only [mem_writtenAddresses, List.mem_cons]
  constructor
  · rintro ⟨p, rfl | hp, h1, h2⟩
    · have h1a : addr ≤ x := h1
      have h2a : x < addr + (m + n) := h2
      by_cases hx : x < addr + m
      · exact ⟨(addr, m), Or.inl rfl, h1a, hx⟩
      · exact ⟨(addr + m, n), Or.inr (Or.inl rfl), by omega, by omega⟩
    · exact ⟨p, Or.inr (Or.inr hp), h1, h2⟩
  · rintro ⟨p, rfl | rfl | hp, h1, h2⟩
    · have h1a : addr ≤ x := h1
      have h2a : x < addr + m := h2
      exact ⟨(addr, m + n), Or.inl rfl, by omega, by omega⟩
    · have h1a : addr + m ≤ x := h1
      have h2a : x < addr + m + n := h2
      exact ⟨(addr, m + n), Or.inl rfl, by omega, by omega⟩
    · exact ⟨p, Or.inr hp, h1, h2⟩

/-- C9: hijacksGoneBad depends only on the sets of byte addresses covered
by its two arguments: its result is unchanged under any transformation of
either hijack list preserving covered addresses, in particular under
reordering and under splitting or merging contiguous ranges; a pair of
length 0 covers no addresses, and when the old hijacks cover no addresses
the result is false for every new hijack list. -/
theorem hijacksGoneBad_address_set_invariance :
    (∀ o1 o2 n1 n2 : List (Nat × Nat),
        (∀ a, a ∈ writtenAddresses o1 ↔ a ∈ writtenAddresses o2) →
        (∀ a, a ∈ writtenAddresses n1 ↔ a ∈ writtenAddresses n2) →
        hijacksGoneBad o1 n1 = hijacksGoneBad o2 n2) ∧
    (∀ addr rest x, x ∈ writtenAddresses ((addr, 0) :: rest) ↔ x ∈ writtenAddresses rest) ∧
    (∀ addr m n rest x,
        x ∈ writtenAddresses ((addr, m + n) :: rest) ↔
          x ∈ writtenAddresses ((addr, m) :: (addr + m, n) :: rest)) ∧
    (∀ o1 o2 n1 n2 : List (Nat × Nat), o1.Perm o2 → n1.Perm n2 →
        hijacksGoneBad o1 n1 = hijacksGoneBad o2 n2) ∧
    (∀ old_hijacks new_hijacks : List (Nat × Nat),
        (∀ x, x ∉ writtenAddresses old_hijacks) →
        hijacksGoneBad old_hijacks new_hijacks = false) := by
  refine ⟨fun o1 o2 n1 n2 ho hn => hijacksGoneBad_congr ho hn,
    mem_writtenAddresses_zero_cons, mem_writtenAddresses_split_cons,
    fun o1 o2 n1 n2 ho hn => ?_, fun old new hempty => ?_⟩
  · refine hijacksGoneBad_congr (fun a => ?_) (fun a => ?_) <;>
      simp only [mem_writtenAddresses]
    · exact ⟨fun ⟨p, hp, h⟩ => ⟨p, ho.mem_iff.mp hp, h⟩,
        fun ⟨p, hp, h⟩ => ⟨p, ho.mem_iff.mpr hp, h⟩⟩
    · exact ⟨fun ⟨p, hp, h⟩ => ⟨p, hn.mem_iff.mp hp, h⟩,
        fun ⟨p, hp, h⟩ => ⟨p, hn.mem_iff.mpr hp, h⟩⟩
  · rw [hijacksGoneBad_false_iff]
    exact fun a ha => absurd ha (hempty a)

/-- C9 witness: the invariance applied at concrete lists covering the
same addresses in different shapes. -/
theorem hijacksGoneBad_address_set_invariance_witness :
    hijacksGoneBad [(16, 4)] [(16, 1), (17, 3)] =
      hijacksGoneBad [(16, 2), (18, 2)] [(16, 4)] :=
  hijacksGoneBad_address_set_invariance.1 [(16, 4)] [(16, 2), (18, 2)]
    [(16, 1), (17, 3)] [(16, 4)] (fun _ => Iff.rfl) (fun _ => Iff.rfl)

/-- C5: the rom_size check raises MustRebuild exactly when the configured
and recorded ROM sizes mismatch in the sense of the spec (both unset is a
match, exactly one set is a mismatch, both set match when equal), and in
every case it either passes or raises MustRebuild. -/
theorem checkRebuildRomSize_matches_spec :
    ∀ (config : Configuration) (report : Report),
      (checkRebuildRomSize config report = .ok () ↔
        romSizeMatchesSpec config.rom_size report.rom_size) ∧
      (checkRebuildRomSize config report = .error .mustRebuild ↔
        ¬ romSizeMatchesSpec config.rom_size report.rom_size) := by
  intro config report
  unfold checkRebuildRomSize romSizeValuesDiffer romSizeMatchesSpec
  rcases hc : config.rom_size with _ | v <;> rcases hr : report.rom_size with _ | w <;>
    simp [hc, hr]

theorem checkEntryRebuildResourceDeps_ok_or (fs : String → Option Nat)
    (ds : List ResourceDependency) :
    checkEntryRebuildResourceDeps fs ds = .ok () ∨
      checkEntryRebuildResourceDeps fs ds = .error .mustRebuild := by
  induction ds with
  | nil => exact Or.inl rfl
  | cons d ds ih =>
    unfold checkEntryRebuildResourceDeps
    by_cases h : d.policy = .REBUILD ∧ currentTimestamp fs d.dependent_path ≠ d.last_write_time
    · rw [if_pos h]
      exact Or.inr rfl
    · rw [if_neg h]
      exact ih

theorem checkEntryRebuildResourceDeps_error_iff (fs : String → Option Nat)
    (ds : List ResourceDependency) :
    checkEntryRebuildResourceDeps fs ds = .error .mustRebuild ↔
      ∃ d ∈ ds, rebuildResourceMismatch fs d := by
  induction ds with
  | nil => simp [checkEntryRebuildResourceDeps]
  | cons d ds ih =>
    unfold checkEntryRebuildResourceDeps
    by_cases h : d.policy = .REBUILD ∧ currentTimestamp fs d.dependent_path ≠ d.last_write_time
    · rw [if_pos h]
      constructor
      · intro _
        exact ⟨d, List.mem_cons_self d ds, h⟩
      · intro _
        rfl
    · rw [if_neg h, ih]
      constructor
      · rintro ⟨x, hx, hm⟩
        exact ⟨x, List.mem_cons_of_mem _ hx, hm⟩
      · rintro ⟨x, hx, hm⟩
        rcases List.mem_cons.mp hx with rfl | hx2
        · exact absurd hm h
        · exact ⟨x, hx2, hm⟩

theorem checkRebuildResourceDependenciesFrom_ok_or (fs : String → Option Nat)
    (es : List Entry) :
    checkRebuildResourceDependenciesFrom fs es = .ok () ∨
      checkRebuildResourceDependenciesFrom fs es = .error .mustRebuild := by
  induction es with
  | nil => exact Or.inl rfl
  | cons e es ih =>
    unfold checkRebuildResourceDependenciesFrom
    rcases checkEntryRebuildResourceDeps_ok_or fs e.resource_dependencies with h | h <;> rw [h]
    · exact ih
    · exact Or.inr rfl

theorem checkRebuildResourceDependenciesFrom_error_iff (fs : String → Option Nat)
    (es : List Entry) :
    checkRebuildResourceDependenciesFrom fs es = .error .mustRebuild ↔
      ∃ e ∈ es, ∃ d ∈ e.resource_dependencies, rebuildResourceMismatch fs d := by
  induction es with
  | nil => simp [checkRebuildResourceDependenciesFrom]
  | cons e es ih =>
    unfold checkRebuildResourceDependenciesFrom
    rcases checkEntryRebuildResourceDeps_ok_or fs e.resource_dependencies with h | h <;> rw [h]
    · show checkRebuildResourceDependenciesFrom fs es = Except.error BuildError.mustRebuild ↔ _
      rw [ih]
      constructor
      · rintro ⟨x, hx, hd⟩
        exact ⟨x, List.mem_cons_of_mem _ hx, hd⟩
      · rintro ⟨x, hx, hd⟩
        rcases List.mem_cons.mp hx with rfl | hx2
        · exact absurd ((checkEntryRebuildResourceDeps_error_iff fs _).mpr hd) (by simp [h])
        · exact ⟨x, hx2, hd⟩
    · show (Except.error BuildError.mustRebuild : Except BuildError Unit) =
          Except.error BuildError.mustRebuild ↔ _
      constructor
      · intro _
        exact ⟨e, List.mem_cons_self e es,
          (checkEntryRebuildResourceDeps_error_iff fs _).mp h⟩
      · intro _
        rfl

/-- C3: the rebuild resource dependency check at starting index i raises
MustRebuild exactly when some REBUILD resource dependency of some entry
from index i to the end of the list has a changed current timestamp; it
never fails otherwise, its result is independent of the entries before
index i, and the per-entry loop propagates its failure at the current
index. -/
theorem checkRebuildResourceDependencies_forward_scan :
    ∀ (dependencies : List Entry) (fs : String → Option Nat) (starting_index : Nat),
      (checkRebuildResourceDependencies dependencies fs starting_index =
          .error .mustRebuild ↔
        ∃ e ∈ dependencies.drop starting_index, ∃ d ∈ e.resource_dependencies,
          rebuildResourceMismatch fs d) ∧
      (checkRebuildResourceDependencies dependencies fs starting_index = .ok () ↔
        ¬ ∃ e ∈ dependencies.drop starting_index, ∃ d ∈ e.resource_dependencies,
          rebuildResourceMismatch fs d) ∧
      (∀ (pre1 pre2 suffix : List Entry) (j : Nat),
        checkRebuildResourceDependencies (pre1 ++ suffix) fs (pre1.length + j) =
          checkRebuildResourceDependencies (pre2 ++ suffix) fs (pre2.length + j)) ∧
      (∀ (config : Configuration) (env : Env) (report : Report) (remaining : List Entry)
          (st : LoopState) (entry : Entry),
        checkRebuildResourceDependencies report.dependencies env.fs starting_index =
          .error .mustRebuild →
        runEntries config env report (entry :: remaining) starting_index st =
          .error .mustRebuild) := by
  intro dependencies fs starting_index
  refine ⟨checkRebuildResourceDependenciesFrom_error_iff fs _, ?_, ?_, ?_⟩
  · constructor
    · intro hok hex
      have herr := (checkRebuildResourceDependenciesFrom_error_iff fs _).mpr hex
      unfold checkRebuildResourceDependencies at hok
      rw [herr] at hok
      exact Except.noConfusion hok
    · intro hne
      rcases checkRebuildResourceDependenciesFrom_ok_or fs (dependencies.drop starting_index)
        with h | h
      · exact h
      · exact absurd ((checkRebuildResourceDependenciesFrom_error_iff fs _).mp h) hne
  · intro pre1 pre2 suffix j
    unfold checkRebuildResourceDependencies
    rw [List.drop_append j, List.drop_append j]
  · intro config env report remaining st entry h
    unfold runEntries
    rw [h]

/-- C3 witness: on a report whose single entry has a REBUILD resource
dependency recorded with a timestamp while the file is now absent, the
loop at index 0 fails with MustRebuild. -/
theorem checkRebuildResourceDependencies_forward_scan_witness :
    runEntries sampleConfig sampleEnv rebuildMismatchReport [rebuildMismatchEntry] 0
      ⟨false, false⟩ = .error .mustRebuild :=
  (checkRebuildResourceDependencies_forward_scan rebuildMismatchReport.dependencies
      sampleEnv.fs 0).2.2.2 sampleConfig sampleEnv rebuildMismatchReport []
    ⟨false, false⟩ rebuildMismatchEntry rfl

theorem getNewLevelNumbers_error_of_none {mwl : List (Option Nat)} (h : none ∈ mwl) :
    getNewLevelNumbers mwl = .error .insertion := by
  induction mwl with
  | nil => cases h
  | cons o rest ih =>
    cases o with
    | none => rfl
    | some n =>
      have hr : none ∈ rest := by
        rcases List.mem_cons.mp h with hh | ht
        · exact Option.noConfusion hh
        · exact ht
      unfold getNewLevelNumbers
      rw [ih hr]

theorem getNewLevelNumbers_ok_of_no_none {mwl : List (Option Nat)} (h : none ∉ mwl) :
    getNewLevelNumbers mwl = .ok (mwl.filterMap id) := by
  induction mwl with
  | nil => rfl
  | cons o rest ih =>
    cases o with
    | none => exact absurd (List.mem_cons_self none rest) h
    | some n =>
      have hr : none ∉ rest := fun hmem => h (List.mem_cons_of_mem _ hmem)
      unfold getNewLevelNumbers
      rw [ih hr]
      simp [List.filterMap_cons]

theorem mem_filterMap_id (mwl : List (Option Nat)) (a : Nat) :
    a ∈ mwl.filterMap id ↔ some a ∈ mwl := by
  simp [List.mem_filterMap]

/-- C7: the level check raises Insertion when the configured levels
folder is missing and when some .mwl file has no determinable level
number; otherwise it raises MustRebuild exactly when some previously
inserted level number has no current .mwl file, and passes exactly when
every previously inserted level is still present, whatever extra levels
exist. -/
theorem checkProblematicLevelChanges_characterization :
    ∀ (folder : LevelsFolder) (old_level_numbers : List Nat),
      (folder.folder_exists = false →
        checkProblematicLevelChanges folder old_level_numbers = .error .insertion) ∧
      (folder.folder_exists = true → none ∈ folder.mwl_numbers →
        checkProblematicLevelChanges folder old_level_numbers = .error .insertion) ∧
      (folder.folder_exists = true → none ∉ folder.mwl_numbers →
        ((checkProblematicLevelChanges folder old_level_numbers = .error .mustRebuild ↔
            ∃ l ∈ old_level_numbers, some l ∉ folder.mwl_numbers) ∧
          (checkProblematicLevelChanges folder old_level_numbers = .ok () ↔
            ∀ l ∈ old_level_numbers, some l ∈ folder.mwl_numbers))) := by
  intro folder old_level_numbers
  refine ⟨fun h => ?_, fun h1 h2 => ?_, fun h1 h2 => ?_⟩
  · unfold checkProblematicLevelChanges
    rw [if_pos (by simp [h])]
  · unfold checkProblematicLevelChanges
    rw [if_neg (by simp [h1]), getNewLevelNumbers_error_of_none h2]
  · have hck : checkProblematicLevelChanges folder old_level_numbers =
        (if old_level_numbers.countP
              (fun l => !((folder.mwl_numbers.filterMap id).contains l)) ≠ 0 then
            (Except.error BuildError.mustRebuild)
          else Except.ok ()) := by
      unfold checkProblematicLevelChanges
      rw [if_neg (by simp [h1]), getNewLevelNumbers_ok_of_no_none h2]
    rw [hck]
    have hcnt : (old_level_numbers.countP
        (fun l => !((folder.mwl_numbers.filterMap id).contains l)) ≠ 0) ↔
        ∃ l ∈ old_level_numbers, some l ∉ folder.mwl_numbers := by
      rw [Ne, List.countP_eq_zero]
      simp [List.contains, List.elem_iff, mem_filterMap_id]
    by_cases hcond : old_level_numbers.countP
        (fun l => !((folder.mwl_numbers.filterMap id).contains l)) ≠ 0
    · rw [if_pos hcond]
      constructor
      · simp only [true_iff]
        exact hcnt.mp hcond
      · constructor
        · intro hcontra
          exact Except.noConfusion hcontra
        · intro hall
          exact absurd (hcnt.mp hcond) (by
            rintro ⟨l, hl, hnot⟩
            exact hnot (hall l hl))
    · rw [if_neg hcond]
      constructor
      · constructor
        · intro hcontra
          exact Except.noConfusion hcontra
        · intro hex
          exact absurd (hcnt.mpr hex) hcond
      · simp only [true_iff]
        intro l hl
        by_contra hnot
        exact hcond (hcnt.mpr ⟨l, hl, hnot⟩)

/-- C7 witness: with a missing levels folder the check raises Insertion,
and with an existing folder missing a previously inserted level it raises
MustRebuild. -/
theorem checkProblematicLevelChanges_characterization_witness :
    checkProblematicLevelChanges ⟨false, []⟩ [5] = .error .insertion ∧
      checkProblematicLevelChanges ⟨true, [some 1]⟩ [5] = .error .mustRebuild :=
  ⟨(checkProblematicLevelChanges_characterization ⟨false, []⟩ [5]).1 rfl,
    ((checkProblematicLevelChanges_characterization ⟨true, [some 1]⟩ [5]).2.2 rfl
        (by decide)).1.mpr ⟨5, by decide, by decide⟩⟩

theorem insertStep_ok_spec {insertable : InsertableOracle} {entry entry1 : Entry}
    {st1 st2 : LoopState} {a : EntryAction}
    (h : insertStep insertable entry st1 = .ok (entry1, a, st2)) :
    a ≠ .unchanged ∧
    st2.any_work_done = st1.any_work_done ∧
    st2.failed_dependency_report =
      (st1.failed_dependency_report || (a == .reinsertLostReport)) ∧
    ((a = .reinsertedWithDeps ∨ a = .reinsertLostReport) →
      st1.failed_dependency_report = false) ∧
    (a = .reinsertedPlain → st1.failed_dependency_report = true) ∧
    (a ≠ .reinsertedWithDeps → entry1 = entry) ∧
    (a = .reinsertedWithDeps →
      entry1.configuration_dependencies = insertable.configurationDependencies ∧
      entry1.hijacks = entry.hijacks ∧
      insertable.insertWithDependencies = .ok entry1.resource_dependencies) := by
  unfold insertStep at h
  by_cases hf : st1.failed_dependency_report = true
  · rw [if_neg (by simp [hf])] at h
    cases hres : insertable.insertResult with
    | error e => rw [hres] at h; exact Except.noConfusion h
    | ok u =>
      rw [hres] at h
      simp only [Except.ok.injEq, Prod.mk.injEq] at h
      obtain ⟨he, ha, hs⟩ := h
      subst he; subst ha; subst hs
      refine ⟨by simp, rfl, by simp, by simp, fun _ => hf, fun _ => rfl, by simp⟩
  · rw [if_pos (by simp [hf])] at h
    rw [Bool.not_eq_true] at hf
    cases hw : insertable.insertWithDependencies with
    | ok resource_deps =>
      rw [hw] at h
      simp only [Except.ok.injEq, Prod.mk.injEq] at h
      obtain ⟨he, ha, hs⟩ := h
      subst he; subst ha; subst hs
      refine ⟨by simp, rfl, by simp, fun _ => hf, by simp, by simp, fun _ => ⟨rfl, rfl, rfl⟩⟩
    | noDependencyReportFound =>
      rw [hw] at h
      simp only [Except.ok.injEq, Prod.mk.injEq] at h
      obtain ⟨he, ha, hs⟩ := h
      subst he; subst ha; subst hs
      refine ⟨by simp, rfl, by simp, fun _ => hf, by simp, fun _ => rfl, by simp⟩
    | err e => rw [hw] at h; exact Except.noConfusion h

theorem patchStep_ok_spec {insertable : InsertableOracle} {entry : Entry}
    {step : Entry × EntryAction × LoopState} {entry1 : Entry} {a : EntryAction}
    {st2 : LoopState}
    (h : patchStep insertable entry step = .ok (entry1, a, st2)) :
    a = step.2.1 ∧ st2 = step.2.2 ∧
    (entry.descriptor.symbol = .PATCH →
      entry1.hijacks = insertable.hijacks ∧
      hijacksGoneBad entry.hijacks insertable.hijacks = false ∧
      entry1.configuration_dependencies = step.1.configuration_dependencies ∧
      entry1.resource_dependencies = step.1.resource_dependencies) ∧
    (entry.descriptor.symbol ≠ .PATCH → entry1 = step.1) := by
  unfold patchStep at h
  by_cases hp : entry.descriptor.symbol = .PATCH
  · rw [if_pos hp] at h
    cases hgb : hijacksGoneBad entry.hijacks insertable.hijacks with
    | true => rw [if_pos (by simp [hgb])] at h; exact Except.noConfusion h
    | false =>
      rw [if_neg (by simp [hgb])] at h
      simp only [Except.ok.injEq, Prod.mk.injEq] at h
      obtain ⟨he, ha, hs⟩ := h
      subst he; subst ha; subst hs
      exact ⟨rfl, rfl, fun _ => ⟨rfl, rfl, rfl, rfl⟩, fun hnp => absurd hp hnp⟩
  · rw [if_neg hp] at h
    simp only [Except.ok.injEq] at h
    subst h
    exact ⟨rfl, rfl, fun hpp => absurd hpp hp, fun _ => rfl⟩

theorem processEntry_ok_spec {config : Configuration} {env : Env} {report : Report}
    {idx : Nat} {entry entry1 : Entry} {act : EntryAction} {st st1 : LoopState}
    (h : processEntry config env report idx entry st = .ok (entry1, act, st1)) :
    (act = .unchanged ↔ classifyEntry config env.fs entry = none) ∧
    (act = .unchanged → entry1 = entry ∧ st1 = st) ∧
    st1.any_work_done = (st.any_work_done || !(act == .unchanged)) ∧
    st1.failed_dependency_report =
      (st.failed_dependency_report || (act == .reinsertLostReport)) ∧
    ((act = .reinsertedWithDeps ∨ act = .reinsertLostReport) →
      st.failed_dependency_report = false) ∧
    (act = .reinsertedPlain → st.failed_dependency_report = true) ∧
    (act ≠ .reinsertedWithDeps → depsUnchanged entry entry1) ∧
    (act = .reinsertedWithDeps →
      entry1.configuration_dependencies = (env.oracle idx).configurationDependencies) ∧
    (entry.descriptor.symbol = .PATCH → act ≠ .unchanged →
      entry1.hijacks = (env.oracle idx).hijacks ∧
      hijacksGoneBad entry.hijacks entry1.hijacks = false) := by
  unfold processEntry at h
  by_cases hcls : (classifyEntry config env.fs entry).isSome
  · rw [if_pos hcls] at h
    cases hclean : (if entry.descriptor.symbol = Symbol.MODULE then
        env.cleanModuleResult (entry.descriptor.name.getD "") else Except.ok ()) with
    | error e => rw [hclean] at h; exact Except.noConfusion h
    | ok u =>
      rw [hclean] at h
      cases hinit : (env.oracle idx).initResult with
      | error e => rw [hinit] at h; exact Except.noConfusion h
      | ok v =>
        rw [hinit] at h
        cases hstep : insertStep (env.oracle idx) entry { st with any_work_done := true } with
        | error e => rw [hstep] at h; exact Except.noConfusion h
        | ok step =>
          rw [hstep] at h
          obtain ⟨hna, hwork, hfail, hff, hfp, hkeep, hwd⟩ := insertStep_ok_spec hstep
          obtain ⟨hact, hst, hpatch, hnotpatch⟩ := patchStep_ok_spec h
          subst hact
          subst hst
          have hclsne : classifyEntry config env.fs entry ≠ none := by
            intro hn
            rw [hn] at hcls
            exact Bool.noConfusion hcls
          refine ⟨iff_of_false hna hclsne, fun hu => absurd hu hna, ?_, ?_, hff, hfp, ?_, ?_, ?_⟩
          · rw [hwork]
            simp [beq_eq_false_iff_ne.mpr hna]
          · rw [hfail]
          · intro hnwd
            by_cases hp : entry.descriptor.symbol = .PATCH
            · obtain ⟨_, _, hc, hr⟩ := hpatch hp
              have hkeep1 := hkeep hnwd
              rw [hkeep1] at hc hr
              exact ⟨hc, hr⟩
            · rw [hnotpatch hp, hkeep hnwd]
              exact ⟨rfl, rfl⟩
          · intro hwdeps
            obtain ⟨hc, _, _⟩ := hwd hwdeps
            by_cases hp : entry.descriptor.symbol = .PATCH
            · obtain ⟨_, _, hcc, _⟩ := hpatch hp
              rw [hcc, hc]
            · rw [hnotpatch hp, hc]
          · intro hp _
            obtain ⟨hh, hgb, _, _⟩ := hpatch hp
            rw [hh]
            exact ⟨rfl, hgb⟩
  · rw [if_neg hcls] at h
    have hclsnone : classifyEntry config env.fs entry = none := by
      cases hcc : classifyEntry config env.fs entry with
      | none => rfl
      | some x => rw [hcc] at hcls; exact absurd rfl hcls
    have hout : entry1 = entry ∧ act = EntryAction.unchanged ∧ st1 = st := by
      by_cases hm : entry.descriptor.symbol = Symbol.MODULE
      · rw [if_pos hm] at h
        cases hcopy : env.copyOldModuleOutput
            (report.module_outputs (entry.descriptor.name.getD "")) with
        | error e => rw [hcopy] at h; exact Except.noConfusion h
        | ok u =>
          rw [hcopy] at h
          simp only [Except.ok.injEq, Prod.mk.injEq] at h
          exact ⟨h.1.symm, h.2.1.symm, h.2.2.symm⟩
      · rw [if_neg hm] at h
        simp only [Except.ok.injEq, Prod.mk.injEq] at h
        exact ⟨h.1.symm, h.2.1.symm, h.2.2.symm⟩
    obtain ⟨he, ha, hs⟩ := hout
    subst he; subst ha; subst hs
    refine ⟨iff_of_true rfl hclsnone, fun _ => ⟨rfl, rfl⟩, by simp, by simp, by simp, by simp,
      fun _ => ⟨rfl, rfl⟩, by simp, fun _ hu => absurd rfl hu⟩

theorem runEntries_ok_spec {config : Configuration} {env : Env} {report : Report} :
    ∀ {entries : List Entry} {idx : Nat} {st : LoopState} {es : List Entry}
      {acts : List EntryAction} {st2 : LoopState},
    runEntries config env report entries idx st = .ok (es, acts, st2) →
    es.length = entries.length ∧ acts.length = entries.length ∧
    st2.any_work_done = (st.any_work_done || acts.any (fun a => !(a == .unchanged))) ∧
    st2.failed_dependency_report =
      (st.failed_dependency_report || acts.any (fun a => a == .reinsertLostReport)) ∧
    List.Forall₂ perEntryOutcome (entries.zip acts) es := by
  intro entries
  induction entries with
  | nil =>
    intro idx st es acts st2 h
    unfold runEntries at h
    simp only [Except.ok.injEq, Prod.mk.injEq] at h
    obtain ⟨h1, h2, h3⟩ := h
    subst h1; subst h2; subst h3
    exact ⟨rfl, rfl, by simp, by simp, List.Forall₂.nil⟩
  | cons entry rest ih =>
    intro idx st es acts st2 h
    unfold runEntries at h
    cases hchk : checkRebuildResourceDependencies report.dependencies env.fs idx with
    | error e => rw [hchk] at h; exact Except.noConfusion h
    | ok u =>
      simp only [hchk] at h
      cases hpe : processEntry config env report idx entry st with
      | error e => rw [hpe] at h; exact Except.noConfusion h
      | ok trip =>
        obtain ⟨e1, a, st1⟩ := trip
        simp only [hpe] at h
        cases hrec : runEntries config env report rest (idx + 1) st1 with
        | error e => rw [hrec] at h; exact Except.noConfusion h
        | ok trip2 =>
          obtain ⟨es1, acts1, st21⟩ := trip2
          simp only [hrec] at h
          simp only [Except.ok.injEq, Prod.mk.injEq] at h
          obtain ⟨hes, hacts, hst⟩ := h
          subst hes; subst hacts; subst hst
          obtain ⟨ihl1, ihl2, ihw, ihf, ihfa⟩ := ih hrec
          obtain ⟨pcls, puc, pw, pf, pff, pfp, pdeps, pcfg, ppatch⟩ := processEntry_ok_spec hpe
          refine ⟨by simp [ihl1], by simp [ihl2], ?_, ?_, ?_⟩
          · rw [ihw, pw]
            simp [Bool.or_assoc]
          · rw [ihf, pf]
            simp [Bool.or_assoc]
          · exact List.Forall₂.cons
              ⟨fun hu => (puc hu).1, pdeps, fun hp hnu => (ppatch hp hnu).2⟩ ihfa

theorem runEntries_failed_sticky {config : Configuration} {env : Env} {report : Report} :
    ∀ {entries : List Entry} {idx : Nat} {st : LoopState} {es : List Entry}
      {acts : List EntryAction} {st2 : LoopState},
    st.failed_dependency_report = true →
    runEntries config env report entries idx st = .ok (es, acts, st2) →
    ∀ a ∈ acts, a ≠ .reinsertedWithDeps ∧ a ≠ .reinsertLostReport := by
  intro entries
  induction entries with
  | nil =>
    intro idx st es acts st2 hf h
    unfold runEntries at h
    simp only [Except.ok.injEq, Prod.mk.injEq] at h
    obtain ⟨h1, h2, h3⟩ := h
    subst h2
    intro a ha
    cases ha
  | cons entry rest ih =>
    intro idx st es acts st2 hf h
    unfold runEntries at h
    cases hchk : checkRebuildResourceDependencies report.dependencies env.fs idx with
    | error e => rw [hchk] at h; exact Except.noConfusion h
    | ok u =>
      simp only [hchk] at h
      cases hpe : processEntry config env report idx entry st with
      | error e => rw [hpe] at h; exact Except.noConfusion h
      | ok trip =>
        obtain ⟨e1, a, st1⟩ := trip
        simp only [hpe] at h
        cases hrec : runEntries config env report rest (idx + 1) st1 with
        | error e => rw [hrec] at h; exact Except.noConfusion h
        | ok trip2 =>
          obtain ⟨es1, acts1, st21⟩ := trip2
          simp only [hrec] at h
          simp only [Except.ok.injEq, Prod.mk.injEq] at h
          obtain ⟨hes, hacts, hst⟩ := h
          subst hacts
          obtain ⟨pcls, puc, pw, pf, pff, pfp, pdeps, pcfg, ppatch⟩ := processEntry_ok_spec hpe
          have hhead : a ≠ .reinsertedWithDeps ∧ a ≠ .reinsertLostReport := by
            constructor
            · intro hh
              rw [pff (Or.inl hh)] at hf
              exact Bool.noConfusion hf
            · intro hh
              rw [pff (Or.inr hh)] at hf
              exact Bool.noConfusion hf
          have hst1 : st1.failed_dependency_report = true := by
            rw [pf, hf]
            rfl
          intro b hb
          rcases List.mem_cons.mp hb with rfl | hb2
          · exact hhead
          · exact ih hst1 hrec b hb2

theorem runEntries_after_lost {config : Configuration} {env : Env} {report : Report} :
    ∀ {entries : List Entry} {idx : Nat} {st : LoopState} {es : List Entry}
      {acts : List EntryAction} {st2 : LoopState},
    runEntries config env report entries idx st = .ok (es, acts, st2) →
    ∀ (i j : Nat) (b : EntryAction), i < j →
      acts[i]? = some .reinsertLostReport → acts[j]? = some b →
      b ≠ .reinsertedWithDeps ∧ b ≠ .reinsertLostReport := by
  intro entries
  induction entries with
  | nil =>
    intro idx st es acts st2 h i j b hij hi hj
    unfold runEntries at h
    simp only [Except.ok.injEq, Prod.mk.injEq] at h
    obtain ⟨h1, h2, h3⟩ := h
    subst h2
    simp at hi
  | cons entry rest ih =>
    intro idx st es acts st2 h i j b hij hi hj
    unfold runEntries at h
    cases hchk : checkRebuildResourceDependencies report.dependencies env.fs idx with
    | error e => rw [hchk] at h; exact Except.noConfusion h
    | ok u =>
      simp only [hchk] at h
      cases hpe : processEntry config env report idx entry st with
      | error e => rw [hpe] at h; exact Except.noConfusion h
      | ok trip =>
        obtain ⟨e1, a, st1⟩ := trip
        simp only [hpe] at h
        cases hrec : runEntries config env report rest (idx + 1) st1 with
        | error e => rw [hrec] at h; exact Except.noConfusion h
        | ok trip2 =>
          obtain ⟨es1, acts1, st21⟩ := trip2
          simp only [hrec] at h
          simp only [Except.ok.injEq, Prod.mk.injEq] at h
          obtain ⟨hes, hacts, hst⟩ := h
          subst hacts
          obtain ⟨pcls, puc, pw, pf, pff, pfp, pdeps, pcfg, ppatch⟩ := processEntry_ok_spec hpe
          cases i with
          | zero =>
            rw [List.getElem?_cons_zero] at hi
            injection hi with hi
            subst hi
            have hst1 : st1.failed_dependency_report = true := by
              rw [pf]
              simp
            cases j with
            | zero => exact absurd hij (by omega)
            | succ k =>
              rw [List.getElem?_cons_succ] at hj
              exact runEntries_failed_sticky hst1 hrec b (List.getElem?_mem hj)
          | succ k =>
            cases j with
            | zero => exact absurd hij (by omega)
            | succ m =>
              rw [List.getElem?_cons_succ] at hi hj
              exact ih hrec k m b (by omega) hi hj

theorem build_ok_elim {config : Configuration} {env : Env} {report : Report}
    {outcome : BuildOutcome} (h : build config env report = .ok outcome) :
    runAndCommit config env report = .ok outcome := by
  unfold build at h
  by_cases hb : config.output_rom_exists = true
  · rw [if_neg (by simp [hb])] at h
    cases h1 : checkRebuildRomSize config report with
    | error e => rw [h1] at h; exact Except.noConfusion h
    | ok u1 =>
      rw [h1] at h
      cases h2 : checkBuildReportFormat report with
      | error e => rw [h2] at h; exact Except.noConfusion h
      | ok u2 =>
        rw [h2] at h
        cases h3 : checkBuildOrderChange config report with
        | error e => rw [h3] at h; exact Except.noConfusion h
        | ok u3 =>
          rw [h3] at h
          cases h4 : (match config.levels with
              | some folder => checkProblematicLevelChanges folder report.inserted_levels
              | none => Except.ok ()) with
          | error e => rw [h4] at h; exact Except.noConfusion h
          | ok u4 =>
            rw [h4] at h
            cases h5 : checkRebuildConfigDependencies config.getByKey report.dependencies with
            | error e => rw [h5] at h; exact Except.noConfusion h
            | ok u5 =>
              rw [h5] at h
              exact h
  · rw [if_pos (by simp [hb])] at h
    exact Except.noConfusion h

theorem runAndCommit_ok_elim {config : Configuration} {env : Env} {report : Report}
    {outcome : BuildOutcome} (h : runAndCommit config env report = .ok outcome) :
    ∃ es acts st2,
      runEntries config env report report.dependencies 0 ⟨false, false⟩ = .ok (es, acts, st2) ∧
      outcome.dependencies = es ∧ outcome.actions = acts ∧
      ((st2.any_work_done = true ∧ outcome.result = .SUCCESS ∧
          outcome.effects =
            { copied_rom_to_temporary := true
              report_written := !st2.failed_dependency_report
              report_deleted := st2.failed_dependency_report
              modules_cached := true
              marker_written := true
              output_replaced := true
              graphics_linked := true
              temporary_folder_removed := true }) ∨
        (st2.any_work_done = false ∧ outcome.result = .NO_WORK ∧
          outcome.effects = noEffects)) := by
  unfold runAndCommit at h
  cases hrun : runEntries config env report report.dependencies 0 ⟨false, false⟩ with
  | error e => rw [hrun] at h; exact Except.noConfusion h
  | ok trip =>
    obtain ⟨es, acts, st2⟩ := trip
    simp only [hrun] at h
    by_cases hw : st2.any_work_done = true
    · rw [if_pos hw] at h
      simp only [Except.ok.injEq] at h
      subst h
      exact ⟨es, acts, st2, rfl, rfl, rfl, Or.inl ⟨hw, rfl, rfl⟩⟩
    · rw [if_neg hw] at h
      simp only [Except.ok.injEq] at h
      subst h
      exact ⟨es, acts, st2, rfl, rfl, rfl,
        Or.inr ⟨Bool.not_eq_true _ ▸ hw, rfl, rfl⟩⟩

theorem forall2_zip_getElem {α β γ : Type _} {P : α × β → γ → Prop} :
    ∀ {l1 : List α} {l2 : List β} {l3 : List γ},
    List.Forall₂ P (l1.zip l2) l3 →
    ∀ (i : Nat) (a : α) (b : β) (c : γ),
      l1[i]? = some a → l2[i]? = some b → l3[i]? = some c → P (a, b) c := by
  intro l1
  induction l1 with
  | nil =>
    intro l2 l3 hf i a b c h1 h2 h3
    exact Option.noConfusion h1
  | cons x l1 ih =>
    intro l2 l3 hf i a b c h1 h2 h3
    cases l2 with
    | nil => exact Option.noConfusion h2
    | cons y l2 =>
      cases hf with
      | cons hP hrest =>
        rename_i c1 l31
        cases i with
        | zero =>
          simp only [List.getElem?_cons_zero, Option.some.injEq] at h1 h2 h3
          subst h1; subst h2; subst h3
          exact hP
        | succ k =>
          simp only [List.getElem?_cons_succ] at h1 h2 h3
          exact ih hrest k a b c h1 h2 h3

theorem forall2_zip_unchanged_eq :
    ∀ {l1 : List Entry} {l2 : List EntryAction} {l3 : List Entry},
    List.Forall₂ perEntryOutcome (l1.zip l2) l3 → l1.length = l2.length →
    (∀ a ∈ l2, a = .unchanged) → l3 = l1 := by
  intro l1
  induction l1 with
  | nil =>
    intro l2 l3 hf hlen hall
    cases hf
    rfl
  | cons x l1 ih =>
    intro l2 l3 hf hlen hall
    cases l2 with
    | nil => exact absurd hlen (by simp)
    | cons y l2 =>
      cases hf with
      | cons hP hrest =>
        rename_i c1 l31
        have hy : y = .unchanged := hall y (List.mem_cons_self y l2)
        have hc : c1 = x := hP.1 hy
        subst hc
        rw [ih hrest (by simpa using hlen) (fun a ha => hall a (List.mem_cons_of_mem _ ha))]

/-- C1: hijacksGoneBad is true exactly when some previously written byte
address is not written any more and false exactly when the old address
set is contained in the new one, so that new addresses absent from the
old set never trigger a rebuild; consequently, in any completed build,
every PATCH entry that was reinserted has its old byte address set
contained in the byte address set of its final hijacks. -/
theorem hijacksGoneBad_iff_and_reinserted_patch_subset :
    (∀ old_hijacks new_hijacks : List (Nat × Nat),
        hijacksGoneBad old_hijacks new_hijacks = true ↔
          ∃ a, a ∈ writtenAddresses old_hijacks ∧ a ∉ writtenAddresses new_hijacks) ∧
    (∀ old_hijacks new_hijacks : List (Nat × Nat),
        hijacksGoneBad old_hijacks new_hijacks = false ↔
          ∀ a ∈ writtenAddresses old_hijacks, a ∈ writtenAddresses new_hijacks) ∧
    (∀ (config : Configuration) (env : Env) (report : Report) (outcome : BuildOutcome),
        build config env report = .ok outcome →
        ∀ (i : Nat) (orig fin : Entry) (act : EntryAction),
          report.dependencies[i]? = some orig → outcome.dependencies[i]? = some fin →
          outcome.actions[i]? = some act → orig.descriptor.symbol = .PATCH →
          act ≠ .unchanged →
          ∀ a ∈ writtenAddresses orig.hijacks, a ∈ writtenAddresses fin.hijacks) := by
  refine ⟨hijacksGoneBad_true_iff, hijacksGoneBad_false_iff, ?_⟩
  intro config env report outcome hb i orig fin act h1 h2 h3 hp hnu
  obtain ⟨es, acts, st2, hrun, hdeps, hacts, _⟩ := runAndCommit_ok_elim (build_ok_elim hb)
  obtain ⟨_, _, _, _, hfa⟩ := runEntries_ok_spec hrun
  rw [hdeps] at h2
  rw [hacts] at h3
  have hP := forall2_zip_getElem hfa i orig act fin h1 h3 h2
  exact (hijacksGoneBad_false_iff _ _).mp (hP.2.2 hp hnu)

/-- C1 witness: a concrete build reinserting one patch whose new hijacks
cover the old ones. -/
theorem hijacksGoneBad_iff_and_reinserted_patch_subset_witness :
    ∀ a ∈ writtenAddresses patchEntry.hijacks,
      a ∈ writtenAddresses patchFinalEntry.hijacks :=
  hijacksGoneBad_iff_and_reinserted_patch_subset.2.2 patchConfig patchEnv patchReport
    patchOutcome rfl 0 patchEntry patchFinalEntry .reinsertedWithDeps rfl rfl rfl rfl
    (by decide)

/-- C2: in a completed build in which some entry lost its dependency
report, that entry keeps both dependency lists, every later entry is
never inserted with dependency bookkeeping (so a reinserted one used the
plain insert) and also keeps its dependency lists, the run did work and
committed with the build report deleted rather than persisted, and a
subsequent invocation finding no report raises MustRebuild. -/
theorem lost_dependency_report_behavior :
    ∀ (config : Configuration) (env : Env) (report : Report) (outcome : BuildOutcome),
      build config env report = .ok outcome →
      ∀ i : Nat, outcome.actions[i]? = some .reinsertLostReport →
        (∀ orig fin : Entry, report.dependencies[i]? = some orig →
          outcome.dependencies[i]? = some fin → depsUnchanged orig fin) ∧
        (∀ (j : Nat) (b : EntryAction), i < j → outcome.actions[j]? = some b →
          (b ≠ .reinsertedWithDeps ∧ b ≠ .reinsertLostReport) ∧
          ∀ orig fin : Entry, report.dependencies[j]? = some orig →
            outcome.dependencies[j]? = some fin → depsUnchanged orig fin) ∧
        outcome.result = .SUCCESS ∧
        outcome.effects.report_deleted = true ∧
        outcome.effects.report_written = false ∧
        quickBuilderConstructor none = .error .mustRebuild := by
  intro config env report outcome hb i hi
  obtain ⟨es, acts, st2, hrun, hdeps, hacts, hcommit⟩ := runAndCommit_ok_elim (build_ok_elim hb)
  obtain ⟨hl1, hl2, hwork, hfail, hfa⟩ := runEntries_ok_spec hrun
  rw [hacts] at hi
  have hlost_mem : EntryAction.reinsertLostReport ∈ acts := List.getElem?_mem hi
  have hfailed : st2.failed_dependency_report = true := by
    rw [hfail]
    show (false || acts.any fun a => a == EntryAction.reinsertLostReport) = true
    rw [Bool.false_or, List.any_eq_true]
    exact ⟨_, hlost_mem, by decide⟩
  have hworked : st2.any_work_done = true := by
    rw [hwork]
    show (false || acts.any fun a => !(a == EntryAction.unchanged)) = true
    rw [Bool.false_or, List.any_eq_true]
    exact ⟨_, hlost_mem, by decide⟩
  rcases hcommit with ⟨_, hres, heff⟩ | ⟨hwf, _, _⟩
  · refine ⟨?_, ?_, hres, ?_, ?_, rfl⟩
    · intro orig fin ho hf
      rw [hdeps] at hf
      exact (forall2_zip_getElem hfa i orig _ fin ho hi hf).2.1
        (fun hc => EntryAction.noConfusion hc)
    · intro j b hij hj
      rw [hacts] at hj
      have hbprop := runEntries_after_lost hrun i j b hij hi hj
      refine ⟨hbprop, ?_⟩
      intro orig fin ho hf
      rw [hdeps] at hf
      exact (forall2_zip_getElem hfa j orig b fin ho hj hf).2.1 hbprop.1
    · rw [heff]
      exact hfailed
    · rw [heff]
      show (!st2.failed_dependency_report) = false
      rw [hfailed]
      rfl
  · rw [hworked] at hwf
    exact Bool.noConfusion hwf

/-- C2 witness: a concrete build whose single entry loses its dependency
report commits successfully with the report deleted. -/
theorem lost_dependency_report_behavior_witness :
    lostOutcome.result = .SUCCESS ∧ lostOutcome.effects.report_deleted = true ∧
      lostOutcome.effects.report_written = false :=
  ⟨(lost_dependency_report_behavior lostConfig lostEnv lostReport lostOutcome rfl 0
      rfl).2.2.1,
   (lost_dependency_report_behavior lostConfig lostEnv lostReport lostOutcome rfl 0
      rfl).2.2.2.1,
   (lost_dependency_report_behavior lostConfig lostEnv lostReport lostOutcome rfl 0
      rfl).2.2.2.2.1⟩

/-- C10: a completed build returns NO_WORK exactly when every entry was
left unchanged, in which case it performs no commit action at all (no ROM
copy, no report write or delete, no module caching, no marker, no output
replacement, no graphics links, no temporary cleanup) and leaves the
dependency entries untouched; when it returns SUCCESS all commit actions
happen and the report is either persisted or deleted but not both. -/
theorem no_work_frame_effects :
    ∀ (config : Configuration) (env : Env) (report : Report) (outcome : BuildOutcome),
      build config env report = .ok outcome →
      ((∀ a ∈ outcome.actions, a = .unchanged) ↔ outcome.result = .NO_WORK) ∧
      (outcome.result = .NO_WORK →
        outcome.effects = noEffects ∧ outcome.dependencies = report.dependencies) ∧
      (outcome.result = .SUCCESS →
        outcome.effects.copied_rom_to_temporary = true ∧
        outcome.effects.modules_cached = true ∧
        outcome.effects.marker_written = true ∧
        outcome.effects.output_replaced = true ∧
        outcome.effects.graphics_linked = true ∧
        outcome.effects.temporary_folder_removed = true ∧
        (outcome.effects.report_written = true ∨ outcome.effects.report_deleted = true) ∧
        ¬(outcome.effects.report_written = true ∧ outcome.effects.report_deleted = true)) := by
  intro config env report outcome hb
  obtain ⟨es, acts, st2, hrun, hdeps, hacts, hcommit⟩ := runAndCommit_ok_elim (build_ok_elim hb)
  obtain ⟨hl1, hl2, hwork, hfail, hfa⟩ := runEntries_ok_spec hrun
  have hwork2 : st2.any_work_done = acts.any (fun a => !(a == .unchanged)) := by
    rw [hwork]
    show (false || acts.any fun a => !(a == EntryAction.unchanged)) = _
    rw [Bool.false_or]
  have hiff : (∀ a ∈ acts, a = .unchanged) ↔ st2.any_work_done = false := by
    rw [hwork2]
    constructor
    · intro hall
      rw [List.any_eq_false]
      intro a ha
      rw [hall a ha]
      decide
    · intro hnone a ha
      rw [List.any_eq_false] at hnone
      have h2 := hnone a ha
      have h3 : (a == EntryAction.unchanged) = true := by
        cases hx : (a == EntryAction.unchanged) with
        | true => rfl
        | false => exact absurd (by rw [hx]; rfl) h2
      exact eq_of_beq h3
  rcases hcommit with ⟨hw, hres, heff⟩ | ⟨hw, hres, heff⟩
  · refine ⟨?_, ?_, ?_⟩
    · apply iff_of_false
      · intro hall
        rw [hacts] at hall
        rw [hiff.mp hall] at hw
        exact Bool.noConfusion hw
      · rw [hres]
        intro hcontra
        exact Result.noConfusion hcontra
    · intro hnw
      rw [hres] at hnw
      exact Result.noConfusion hnw
    · intro _
      rw [heff]
      refine ⟨rfl, rfl, rfl, rfl, rfl, rfl, ?_, ?_⟩
      · show (!st2.failed_dependency_report) = true ∨ st2.failed_dependency_report = true
        cases hf2 : st2.failed_dependency_report with
        | false => exact Or.inl rfl
        | true => exact Or.inr rfl
      · show ¬((!st2.failed_dependency_report) = true ∧ st2.failed_dependency_report = true)
        cases hf2 : st2.failed_dependency_report with
        | false =>
          rintro ⟨_, hq⟩
          exact Bool.noConfusion hq
        | true =>
          rintro ⟨hq, _⟩
          exact Bool.noConfusion hq
  · refine ⟨?_, ?_, ?_⟩
    · apply iff_of_true
      · rw [hacts]
        exact hiff.mpr hw
      · exact hres
    · intro _
      refine ⟨heff, ?_⟩
      rw [hdeps]
      exact forall2_zip_unchanged_eq hfa hl2.symm (hiff.mpr hw)
    · intro hs
      rw [hres] at hs
      exact Result.noConfusion hs

/-- C10 witness: a build over a report with no entries returns NO_WORK
with no effects. -/
theorem no_work_frame_effects_witness :
    noWorkOutcome.effects = noEffects ∧ noWorkOutcome.dependencies = emptyReport.dependencies :=
  (no_work_frame_effects sampleConfig sampleEnv emptyReport noWorkOutcome rfl).2.1 rfl

/-- C4: build runs the per-report checks in source order (previous output
ROM exists, ROM size, report format version, build order, levels when
configured, REBUILD configuration dependencies) and fails fast: as soon
as one fails, the run ends with that error for every possible world, so
no entry is classified or reinserted; when they all pass, the run
proceeds to the per-entry loop and commit. -/
theorem build_precheck_order_fail_fast :
    ∀ (config : Configuration) (report : Report),
      (∀ env : Env, config.output_rom_exists = false →
        build config env report = .error .mustRebuild) ∧
      (∀ (env : Env) (e : BuildError), config.output_rom_exists = true →
        checkRebuildRomSize config report = .error e →
        build config env report = .error e) ∧
      (∀ (env : Env) (e : BuildError), config.output_rom_exists = true →
        checkRebuildRomSize config report = .ok () →
        checkBuildReportFormat report = .error e →
        build config env report = .error e) ∧
      (∀ (env : Env) (e : BuildError), config.output_rom_exists = true →
        checkRebuildRomSize config report = .ok () →
        checkBuildReportFormat report = .ok () →
        checkBuildOrderChange config report = .error e →
        build config env report = .error e) ∧
      (∀ (env : Env) (e : BuildError) (folder : LevelsFolder),
        config.output_rom_exists = true →
        checkRebuildRomSize config report = .ok () →
        checkBuildReportFormat report = .ok () →
        checkBuildOrderChange config report = .ok () →
        config.levels = some folder →
        checkProblematicLevelChanges folder report.inserted_levels = .error e →
        build config env report = .error e) ∧
      (∀ (env : Env) (e : BuildError), config.output_rom_exists = true →
        checkRebuildRomSize config report = .ok () →
        checkBuildReportFormat report = .ok () →
        checkBuildOrderChange config report = .ok () →
        (match config.levels with
         | some folder => checkProblematicLevelChanges folder report.inserted_levels
         | none => Except.ok ()) = .ok () →
        checkRebuildConfigDependencies config.getByKey report.dependencies = .error e →
        build config env report = .error e) ∧
      (∀ env : Env, config.output_rom_exists = true →
        checkRebuildRomSize config report = .ok () →
        checkBuildReportFormat report = .ok () →
        checkBuildOrderChange config report = .ok () →
        (match config.levels with
         | some folder => checkProblematicLevelChanges folder report.inserted_levels
         | none => Except.ok ()) = .ok () →
        checkRebuildConfigDependencies config.getByKey report.dependencies = .ok () →
        build config env report = runAndCommit config env report) := by
  intro config report
  refine ⟨?_, ?_, ?_, ?_, ?_, ?_, ?_⟩
  · intro env h1
    unfold build
    rw [if_pos (by simp [h1])]
  · intro env e h1 h2
    unfold build
    rw [if_neg (by simp [h1]), h2]
  · intro env e h1 h2 h3
    unfold build
    rw [if_neg (by simp [h1]), h2, h3]
  · intro env e h1 h2 h3 h4
    unfold build
    rw [if_neg (by simp [h1]), h2, h3, h4]
  · intro env e folder h1 h2 h3 h4 h5 h6
    unfold build
    rw [if_neg (by simp [h1]), h2, h3, h4]
    simp only [h5]
    rw [h6]
  · intro env e h1 h2 h3 h4 h5 h6
    unfold build
    rw [if_neg (by simp [h1]), h2, h3, h4, h5, h6]
  · intro env h1 h2 h3 h4 h5 h6
    unfold build
    rw [if_neg (by simp [h1]), h2, h3, h4, h5, h6]

/-- C4 witness: with the previous output ROM missing, the run ends with
MustRebuild whatever the rest of the world looks like. -/
theorem build_precheck_order_fail_fast_witness :
    build noRomConfig sampleEnv emptyReport = .error .mustRebuild :=
  (build_precheck_order_fail_fast noRomConfig emptyReport).1 sampleEnv rfl

theorem checkReinsertConfigDependencies_eq_some_iff (getByKey : String → Nat)
    (ds : List ConfigurationDependency) (d : ConfigurationDependency) :
    checkReinsertConfigDependencies getByKey ds = some d ↔
      ∃ pre post, ds = pre ++ d :: post ∧ configMismatch getByKey d ∧
        ∀ b ∈ pre, ¬ configMismatch getByKey b := by
  induction ds with
  | nil =>
    constructor
    · intro h
      exact Option.noConfusion h
    · rintro ⟨pre, post, heq, _, _⟩
      cases pre <;> exact List.noConfusion heq
  | cons x ds ih =>
    unfold checkReinsertConfigDependencies
    by_cases h : x.policy = .REINSERT ∧ x.value ≠ getByKey x.config_keys
    · rw [if_pos h]
      constructor
      · intro hs
        injection hs with hs
        subst hs
        exact ⟨[], ds, rfl, h, by simp⟩
      · rintro ⟨pre, post, heq, hmd, hpre⟩
        cases pre with
        | nil =>
          injection heq with he1 he2
          rw [he1]
        | cons y pre2 =>
          injection heq with he1 he2
          subst he1
          exact absurd h (hpre x (List.mem_cons_self x pre2))
    · rw [if_neg h, ih]
      constructor
      · rintro ⟨pre, post, heq, hmd, hpre⟩
        refine ⟨x :: pre, post, by rw [heq]; rfl, hmd, ?_⟩
        intro b hb
        rcases List.mem_cons.mp hb with rfl | hb2
        · exact h
        · exact hpre b hb2
      · rintro ⟨pre, post, heq, hmd, hpre⟩
        cases pre with
        | nil =>
          injection heq with he1 he2
          subst he1
          exact absurd hmd h
        | cons y pre2 =>
          injection heq with he1 he2
          subst he1
          exact ⟨pre2, post, he2, hmd, fun b hb => hpre b (List.mem_cons_of_mem _ hb)⟩

theorem checkReinsertConfigDependencies_eq_none_iff (getByKey : String → Nat)
    (ds : List ConfigurationDependency) :
    checkReinsertConfigDependencies getByKey ds = none ↔
      ∀ b ∈ ds, ¬ configMismatch getByKey b := by
  induction ds with
  | nil => simp [checkReinsertConfigDependencies]
  | cons x ds ih =>
    unfold checkReinsertConfigDependencies
    by_cases h : x.policy = .REINSERT ∧ x.value ≠ getByKey x.config_keys
    · rw [if_pos h]
      constructor
      · intro hc
        exact Option.noConfusion hc
      · intro hall
        exact absurd h (hall x (List.mem_cons_self x ds))
    · rw [if_neg h, ih]
      constructor
      · intro hall b hb
        rcases List.mem_cons.mp hb with rfl | hb2
        · exact h
        · exact hall b hb2
      · intro hall b hb
        exact hall b (List.mem_cons_of_mem _ hb)

theorem checkReinsertResourceDependencies_eq_some_iff (fs : String → Option Nat)
    (ds : List ResourceDependency) (d : ResourceDependency) :
    checkReinsertResourceDependencies fs ds = some d ↔
      ∃ pre post, ds = pre ++ d :: post ∧ resourceMismatch fs d ∧
        ∀ b ∈ pre, ¬ resourceMismatch fs b := by
  induction ds with
  | nil =>
    constructor
    · intro h
      exact Option.noConfusion h
    · rintro ⟨pre, post, heq, _, _⟩
      cases pre <;> exact List.noConfusion heq
  | cons x ds ih =>
    unfold checkReinsertResourceDependencies
    by_cases h : x.policy = .REINSERT ∧ currentTimestamp fs x.dependent_path ≠ x.last_write_time
    · rw [if_pos h]
      constructor
      · intro hs
        injection hs with hs
        subst hs
        exact ⟨[], ds, rfl, h, by simp⟩
      · rintro ⟨pre, post, heq, hmd, hpre⟩
        cases pre with
        | nil =>
          injection heq with he1 he2
          rw [he1]
        | cons y pre2 =>
          injection heq with he1 he2
          subst he1
          exact absurd h (hpre x (List.mem_cons_self x pre2))
    · rw [if_neg h, ih]
      constructor
      · rintro ⟨pre, post, heq, hmd, hpre⟩
        refine ⟨x :: pre, post, by rw [heq]; rfl, hmd, ?_⟩
        intro b hb
        rcases List.mem_cons.mp hb with rfl | hb2
        · exact h
        · exact hpre b hb2
      · rintro ⟨pre, post, heq, hmd, hpre⟩
        cases pre with
        | nil =>
          injection heq with he1 he2
          subst he1
          exact absurd hmd h
        | cons y pre2 =>
          injection heq with he1 he2
          subst he1
          exact ⟨pre2, post, he2, hmd, fun b hb => hpre b (List.mem_cons_of_mem _ hb)⟩

theorem checkReinsertResourceDependencies_eq_none_iff (fs : String → Option Nat)
    (ds : List ResourceDependency) :
    checkReinsertResourceDependencies fs ds = none ↔
      ∀ b ∈ ds, ¬ resourceMismatch fs b := by
  induction ds with
  | nil => simp [checkReinsertResourceDependencies]
  | cons x ds ih =>
    unfold checkReinsertResourceDependencies
    by_cases h : x.policy = .REINSERT ∧ currentTimestamp fs x.dependent_path ≠ x.last_write_time
    · rw [if_pos h]
      constructor
      · intro hc
        exact Option.noConfusion hc
      · intro hall
        exact absurd h (hall x (List.mem_cons_self x ds))
    · rw [if_neg h, ih]
      constructor
      · intro hall b hb
        rcases List.mem_cons.mp hb with rfl | hb2
        · exact h
        · exact hall b hb2
      · intro hall b hb
        exact hall b (List.mem_cons_of_mem _ hb)

/-- C6: an entry is classified for reinsertion exactly when some REINSERT
configuration dependency changed value or, no such one existing, some
REINSERT resource dependency changed timestamp; the configuration walk
runs before the resource walk and each walk reports the first mismatching
dependency; in the loop, the entry is handled as unchanged exactly when
the classification found nothing. -/
theorem classifyEntry_reinsert_characterization :
    ∀ (config : Configuration) (fs : String → Option Nat) (entry : Entry),
      ((classifyEntry config fs entry).isSome ↔
        (∃ d ∈ entry.configuration_dependencies, configMismatch config.getByKey d) ∨
        (∃ d ∈ entry.resource_dependencies, resourceMismatch fs d)) ∧
      (∀ cd, classifyEntry config fs entry = some (Sum.inl cd) ↔
        ∃ pre post, entry.configuration_dependencies = pre ++ cd :: post ∧
          configMismatch config.getByKey cd ∧
          ∀ b ∈ pre, ¬ configMismatch config.getByKey b) ∧
      (∀ rd, classifyEntry config fs entry = some (Sum.inr rd) ↔
        (∀ b ∈ entry.configuration_dependencies, ¬ configMismatch config.getByKey b) ∧
        ∃ pre post, entry.resource_dependencies = pre ++ rd :: post ∧
          resourceMismatch fs rd ∧ ∀ b ∈ pre, ¬ resourceMismatch fs b) ∧
      (∀ (env : Env) (report : Report) (idx : Nat) (st : LoopState) (entry1 : Entry)
          (act : EntryAction) (st1 : LoopState),
        env.fs = fs →
        processEntry config env report idx entry st = .ok (entry1, act, st1) →
        (act = .unchanged ↔ classifyEntry config fs entry = none)) := by
  intro config fs entry
  refine ⟨?_, ?_, ?_, ?_⟩
  · unfold classifyEntry
    cases hc : checkReinsertConfigDependencies config.getByKey
        entry.configuration_dependencies with
    | some cd =>
      apply iff_of_true rfl
      left
      obtain ⟨pre, post, heq, hmd, _⟩ :=
        (checkReinsertConfigDependencies_eq_some_iff _ _ _).mp hc
      exact ⟨cd, by rw [heq]; exact List.mem_append_right _ (List.mem_cons_self _ _), hmd⟩
    | none =>
      cases hr : checkReinsertResourceDependencies fs entry.resource_dependencies with
      | some rd =>
        apply iff_of_true rfl
        right
        obtain ⟨pre, post, heq, hmd, _⟩ :=
          (checkReinsertResourceDependencies_eq_some_iff _ _ _).mp hr
        exact ⟨rd, by rw [heq]; exact List.mem_append_right _ (List.mem_cons_self _ _), hmd⟩
      | none =>
        apply iff_of_false (by simp)
        rintro (⟨d, hd, hm⟩ | ⟨d, hd, hm⟩)
        · exact ((checkReinsertConfigDependencies_eq_none_iff _ _).mp hc d hd) hm
        · exact ((checkReinsertResourceDependencies_eq_none_iff _ _).mp hr d hd) hm
  · intro cd
    unfold classifyEntry
    cases hc : checkReinsertConfigDependencies config.getByKey
        entry.configuration_dependencies with
    | some cd0 =>
      constructor
      · intro hs
        injection hs with hs
        injection hs with hs
        subst hs
        exact (checkReinsertConfigDependencies_eq_some_iff _ _ _).mp hc
      · intro hdec
        have h2 := (checkReinsertConfigDependencies_eq_some_iff _ _ _).mpr hdec
        rw [hc] at h2
        injection h2 with h2
        rw [h2]
    | none =>
      cases hr : checkReinsertResourceDependencies fs entry.resource_dependencies with
      | some rd =>
        constructor
        · intro hs
          injection hs with hs
          exact Sum.noConfusion hs
        · intro hdec
          have h2 := (checkReinsertConfigDependencies_eq_some_iff _ _ _).mpr hdec
          rw [hc] at h2
          exact Option.noConfusion h2
      | none =>
        constructor
        · intro hs
          exact Option.noConfusion hs
        · intro hdec
          have h2 := (checkReinsertConfigDependencies_eq_some_iff _ _ _).mpr hdec
          rw [hc] at h2
          exact Option.noConfusion h2
  · intro rd
    unfold classifyEntry
    cases hc : checkReinsertConfigDependencies config.getByKey
        entry.configuration_dependencies with
    | some cd0 =>
      constructor
      · intro hs
        injection hs with hs
        exact Sum.noConfusion hs
      · rintro ⟨hnone, hdec⟩
        have h2 := (checkReinsertConfigDependencies_eq_none_iff _ _).mpr hnone
        rw [hc] at h2
        exact Option.noConfusion h2
    | none =>
      cases hr : checkReinsertResourceDependencies fs entry.resource_dependencies with
      | some rd0 =>
        constructor
        · intro hs
          injection hs with hs
          injection hs with hs
          subst hs
          exact ⟨(checkReinsertConfigDependencies_eq_none_iff _ _).mp hc,
            (checkReinsertResourceDependencies_eq_some_iff _ _ _).mp hr⟩
        · rintro ⟨hnone, hdec⟩
          have h2 := (checkReinsertResourceDependencies_eq_some_iff _ _ _).mpr hdec
          rw [hr] at h2
          injection h2 with h2
          rw [h2]
      | none =>
        constructor
        · intro hs
          exact Option.noConfusion hs
        · rintro ⟨hnone, hdec⟩
          have h2 := (checkReinsertResourceDependencies_eq_some_iff _ _ _).mpr hdec
          rw [hr] at h2
          exact Option.noConfusion h2
  · intro env report idx st entry1 act st1 hfs hok
    have h1 := (processEntry_ok_spec hok).1
    rw [hfs] at h1
    exact h1

/-- C6 witness: an entry whose single REINSERT configuration dependency
changed value is classified for reinsertion with that dependency
reported. -/
theorem classifyEntry_reinsert_characterization_witness :
    classifyEntry sampleConfig sampleEnv.fs configMismatchEntry =
      some (Sum.inl mismatchConfigDep) :=
  ((classifyEntry_reinsert_characterization sampleConfig sampleEnv.fs
      configMismatchEntry).2.1 mismatchConfigDep).mpr
    ⟨[], [], rfl, ⟨rfl, by decide⟩, by simp⟩

theorem land_mask_eq_mod (n : Nat) : n &&& 0x7FFF = n % 0x8000 := by
  apply Nat.eq_of_testBit_eq
  intro i
  rw [Nat.testBit_land, show (0x7FFF : Nat) = 2 ^ 15 - 1 by norm_num,
    Nat.testBit_two_pow_sub_one, show (0x8000 : Nat) = 2 ^ 15 by norm_num,
    Nat.testBit_mod_two_pow]
  exact Bool.and_comm _ _

theorem hexDigitU_facts (d : Nat) (hd : d < 16) :
    isUpperHexDigit (hexDigitU d) = true ∧ hexVal (hexDigitU d) = d := by
  interval_cases d <;> exact ⟨by decide, by decide⟩

theorem foldl_hex_shift (l : List Char) (i : Nat) :
    l.foldl (fun acc c => 16 * acc + hexVal c) i = i * 16 ^ l.length + ofHexChars l := by
  induction l generalizing i with
  | nil => simp [ofHexChars]
  | cons c l ih =>
    show l.foldl _ (16 * i + hexVal c) = _
    rw [ih]
    have hc : ofHexChars (c :: l) = hexVal c * 16 ^ l.length + ofHexChars l := by
      show l.foldl _ (16 * 0 + hexVal c) = _
      rw [ih]
      ring
    rw [hc, List.length_cons, pow_succ]
    ring

theorem hexCharsAux_decode :
    ∀ (fuel n : Nat) (acc : List Char), n ≤ fuel →
      ofHexChars (hexCharsAux fuel n acc) = n * 16 ^ acc.length + ofHexChars acc := by
  intro fuel
  induction fuel with
  | zero =>
    intro n acc hn
    have h0 : n = 0 := by omega
    subst h0
    simp [hexCharsAux]
  | succ fuel ih =>
    intro n acc hn
    cases n with
    | zero => simp [hexCharsAux]
    | succ m =>
      show ofHexChars (hexCharsAux fuel ((m + 1) / 16) (hexDigitU ((m + 1) % 16) :: acc)) = _
      have hdiv : (m + 1) / 16 ≤ fuel := by
        have := Nat.div_lt_self (Nat.succ_pos m) (by norm_num : 1 < 16)
        omega
      rw [ih _ _ hdiv]
      have hof : ofHexChars (hexDigitU ((m + 1) % 16) :: acc) =
          ((m + 1) % 16) * 16 ^ acc.length + ofHexChars acc := by
        show acc.foldl _ (16 * 0 + hexVal (hexDigitU ((m + 1) % 16))) = _
        rw [(hexDigitU_facts ((m + 1) % 16) (Nat.mod_lt _ (by norm_num))).2, foldl_hex_shift]
        ring
      rw [hof, List.length_cons, pow_succ]
      set q := (m + 1) / 16 with hq
      set r := (m + 1) % 16 with hr
      have h16 : 16 * q + r = m + 1 := Nat.div_add_mod _ _
      rw [← h16]
      ring

theorem ofHexChars_hexChars (n : Nat) : ofHexChars (hexChars n) = n := by
  unfold hexChars
  by_cases h : n = 0
  · rw [if_pos h, h]
    decide
  · rw [if_neg h, hexCharsAux_decode n n [] (Nat.le_refl n)]
    simp [ofHexChars]

theorem hexCharsAux_length_le :
    ∀ (fuel n : Nat) (acc : List Char) (k : Nat), n ≤ fuel → n < 16 ^ k →
      (hexCharsAux fuel n acc).length ≤ k + acc.length := by
  intro fuel
  induction fuel with
  | zero =>
    intro n acc k hn hk
    have h0 : n = 0 := by omega
    subst h0
    show acc.length ≤ k + acc.length
    omega
  | succ fuel ih =>
    intro n acc k hn hk
    cases n with
    | zero =>
      show acc.length ≤ k + acc.length
      omega
    | succ m =>
      cases k with
      | zero =>
        simp only [pow_zero] at hk
        omega
      | succ j =>
        show (hexCharsAux fuel ((m + 1) / 16) (hexDigitU ((m + 1) % 16) :: acc)).length ≤ _
        have hdiv : (m + 1) / 16 ≤ fuel := by
          have := Nat.div_lt_self (Nat.succ_pos m) (by norm_num : 1 < 16)
          omega
        have hlt : (m + 1) / 16 < 16 ^ j := by
          rw [Nat.div_lt_iff_lt_mul (by norm_num : 0 < 16)]
          calc m + 1 < 16 ^ (j + 1) := hk
            _ = 16 ^ j * 16 := by rw [pow_succ]
        have := ih ((m + 1) / 16) (hexDigitU ((m + 1) % 16) :: acc) j hdiv hlt
        rw [List.length_cons] at this
        omega

theorem hexChars_length_le (n k : Nat) (hk : 1 ≤ k) (h : n < 16 ^ k) :
    (hexChars n).length ≤ k := by
  unfold hexChars
  by_cases h0 : n = 0
  · rw [if_pos h0]
    show 1 ≤ k
    exact hk
  · rw [if_neg h0]
    have := hexCharsAux_length_le n n [] k (Nat.le_refl n) h
    simpa using this

theorem hexCharsAux_all_upper :
    ∀ (fuel n : Nat) (acc : List Char), (∀ c ∈ acc, isUpperHexDigit c = true) →
      ∀ c ∈ hexCharsAux fuel n acc, isUpperHexDigit c = true := by
  intro fuel
  induction fuel with
  | zero =>
    intro n acc hacc
    exact hacc
  | succ fuel ih =>
    intro n acc hacc
    cases n with
    | zero => exact hacc
    | succ m =>
      show ∀ c ∈ hexCharsAux fuel ((m + 1) / 16) (hexDigitU ((m + 1) % 16) :: acc), _
      refine ih _ _ ?_
      intro c hc
      rcases List.mem_cons.mp hc with rfl | hc2
      · exact (hexDigitU_facts ((m + 1) % 16) (Nat.mod_lt _ (by norm_num))).1
      · exact hacc c hc2

theorem hexChars_all_upper (n : Nat) : ∀ c ∈ hexChars n, isUpperHexDigit c = true := by
  unfold hexChars
  by_cases h0 : n = 0
  · rw [if_pos h0]
    intro c hc
    rcases List.mem_cons.mp hc with rfl | hc2
    · decide
    · cases hc2
  · rw [if_neg h0]
    exact hexCharsAux_all_upper n n [] (by simp)

theorem padLeftZeros_length (s : List Char) (w : Nat) :
    (padLeftZeros s w).length = max w s.length := by
  unfold padLeftZeros
  rw [List.length_append, List.length_replicate]
  omega

theorem padLeftZeros_all_upper (s : List Char) (w : Nat)
    (hs : ∀ c ∈ s, isUpperHexDigit c = true) :
    ∀ c ∈ padLeftZeros s w, isUpperHexDigit c = true := by
  unfold padLeftZeros
  intro c hc
  rcases List.mem_append.mp hc with hc1 | hc2
  · rw [List.eq_of_mem_replicate hc1]
    decide
  · exact hs c hc2

theorem foldl_hex_zeros (k : Nat) :
    List.foldl (fun acc c => 16 * acc + hexVal c) 0 (List.replicate k '0') = 0 := by
  induction k with
  | zero => rfl
  | succ j ih =>
    rw [List.replicate_succ, List.foldl_cons]
    show List.foldl (fun acc c => 16 * acc + hexVal c) 0 (List.replicate j '0') = 0
    exact ih

theorem ofHexChars_padLeftZeros (s : List Char) (w : Nat) :
    ofHexChars (padLeftZeros s w) = ofHexChars s := by
  unfold padLeftZeros ofHexChars
  rw [List.foldl_append, foldl_hex_zeros]

theorem formatAutocleanLine_data (a : Nat) :
    (formatAutocleanLine a).data =
      "autoclean $".data ++ padLeftZeros (hexChars a) 6 ++ ['\n'] := rfl

theorem buildCleanPatchSource_contains {a : Nat} {addresses : List Nat} (h : a ∈ addresses) :
    ∃ pre post : List Char,
      (buildCleanPatchSource addresses).data = pre ++ (formatAutocleanLine a).data ++ post := by
  induction addresses with
  | nil => cases h
  | cons x rest ih =>
    rcases List.mem_cons.mp h with rfl | h2
    · refine ⟨[], (buildCleanPatchSource rest).data, ?_⟩
      show ((formatAutocleanLine a ++ buildCleanPatchSource rest : String)).data = _
      rw [List.nil_append]
      rfl
    · obtain ⟨pre, post, heq⟩ := ih h2
      refine ⟨(formatAutocleanLine x).data ++ pre, post, ?_⟩
      show ((formatAutocleanLine x ++ buildCleanPatchSource rest : String)).data = _
      show (formatAutocleanLine x).data ++ (buildCleanPatchSource rest).data = _
      rw [heq]
      simp [List.append_assoc]

/-- C8 (amended): cleanModule raises MustRebuild when the cleanup file is
missing and when the assembler call fails; otherwise, for every decimal
address A read from the cleanup file, the generated assembly source
contains the directive autoclean followed by a dollar sign and A in
uppercase hexadecimal zero-padded to at least six digits (exactly six
whenever A is below 16 to the 6th power), the header size passed on to
the assembler equals the ROM size mod 0x8000, and on assembler success
the possibly modified buffer is written back to the temporary ROM. -/
theorem cleanModule_characterization :
    ∀ (cleanup_file : Option (List Nat)) (rom_bytes : List Nat) (asar : AsarModel),
      (cleanup_file = none →
        cleanModule cleanup_file rom_bytes asar = .error .mustRebuild) ∧
      (∀ addresses, cleanup_file = some addresses → asar.init_ok = true →
        asar.patch (buildCleanPatchSource addresses)
          (rom_bytes.drop (rom_bytes.length % 0x8000)) = none →
        cleanModule cleanup_file rom_bytes asar = .error .mustRebuild) ∧
      (∀ o, cleanModule cleanup_file rom_bytes asar = .ok o →
        (∃ addresses, cleanup_file = some addresses ∧
          o.patch_source = buildCleanPatchSource addresses ∧
          ∀ a ∈ addresses, ∃ pre post s,
            (o.patch_source).data = pre ++ ("autoclean $".data ++ s ++ ['\n']) ++ post ∧
            6 ≤ s.length ∧ (a < 16 ^ 6 → s.length = 6) ∧
            (∀ c ∈ s, isUpperHexDigit c = true) ∧ ofHexChars s = a) ∧
        o.header_size = rom_bytes.length % 0x8000 ∧
        o.unheadered_rom_size = rom_bytes.length - o.header_size ∧
        (∃ body, asar.patch o.patch_source (rom_bytes.drop o.header_size) = some body ∧
          o.written_rom = rom_bytes.take o.header_size ++ body)) := by
  intro cleanup_file rom_bytes asar
  refine ⟨?_, ?_, ?_⟩
  · intro h
    rw [h]
    rfl
  · intro addresses h hinit hpatch
    rw [h]
    show (if ¬asar.init_ok then (Except.error BuildError.toolNotFound) else _) = _
    rw [if_neg (by simp [hinit]), land_mask_eq_mod, hpatch]
  · intro o ho
    cases hcf : cleanup_file with
    | none =>
      rw [hcf] at ho
      exact Except.noConfusion ho
    | some addresses =>
      rw [hcf] at ho
      replace ho : (if ¬asar.init_ok then (Except.error BuildError.toolNotFound : Except BuildError CleanModuleOutcome)
          else
            match asar.patch (buildCleanPatchSource addresses)
                (rom_bytes.drop (rom_bytes.length &&& 0x7FFF)) with
            | some body =>
              Except.ok
                { patch_source := buildCleanPatchSource addresses
                  header_size := rom_bytes.length &&& 0x7FFF
                  unheadered_rom_size :=
                    rom_bytes.length - (rom_bytes.length &&& 0x7FFF)
                  written_rom :=
                    rom_bytes.take (rom_bytes.length &&& 0x7FFF) ++ body }
            | none => Except.error BuildError.mustRebuild) = Except.ok o := ho
      by_cases hinit : asar.init_ok = true
      · rw [if_neg (by simp [hinit])] at ho
        cases hpat : asar.patch (buildCleanPatchSource addresses)
            (rom_bytes.drop (rom_bytes.length &&& 0x7FFF)) with
        | none =>
          rw [hpat] at ho
          exact Except.noConfusion ho
        | some body =>
          rw [hpat] at ho
          injection ho with ho
          subst ho
          refine ⟨⟨addresses, rfl, rfl, ?_⟩, land_mask_eq_mod _, rfl,
            body, hpat, rfl⟩
          intro a ha
          obtain ⟨pre, post, heq⟩ := buildCleanPatchSource_contains ha
          refine ⟨pre, post, padLeftZeros (hexChars a) 6, ?_, ?_, ?_, ?_, ?_⟩
          · rw [heq, formatAutocleanLine_data]
          · rw [padLeftZeros_length]
            omega
          · intro ha6
            rw [padLeftZeros_length]
            have := hexChars_length_le a 6 (by norm_num) ha6
            omega
          · exact padLeftZeros_all_upper _ _ (hexChars_all_upper a)
          · rw [ofHexChars_padLeftZeros]
            exact ofHexChars_hexChars a
      · rw [if_pos (by simp [hinit])] at ho
        exact Except.noConfusion ho

/-- C8 counterexample: for the address 16777216 the generated directive
carries seven hexadecimal digits, so the claim that the address is always
formatted as exactly six uppercase hexadecimal digits fails. -/
theorem cleanModule_six_digit_counterexample :
    buildCleanPatchSource [16777216] = "autoclean $1000000\n" ∧
    ¬ ∃ s : List Char, (formatAutocleanLine 16777216).data =
        "autoclean $".data ++ s ++ ['\n'] ∧ s.length = 6 := by
  refine ⟨by decide, ?_⟩
  rintro ⟨s, heq, hlen⟩
  have h19 : (formatAutocleanLine 16777216).data.length = 19 := by decide
  have h11 : ("autoclean $".data).length = 11 := by decide
  rw [heq, List.length_append, List.length_append, h11, hlen,
    show (['\n'] : List Char).length = 1 from rfl] at h19
  omega

/-- C8 witness: cleaning a module with one address on a two byte ROM
computes the header size as the ROM size mod 0x8000. -/
theorem cleanModule_characterization_witness :
    cleanOutcome.header_size = ([7, 7] : List Nat).length % 0x8000 :=
  ((cleanModule_characterization (some [1081344]) [7, 7] cleanAsar).2.2 cleanOutcome
    rfl).2.1

end Callisto
